import Mathlib

/-!
Verification development for the PostGuard repository (DorAlter/postguard).

The development shallowly embeds, over `List Nat` byte strings:

* `reck` (src/reck/src/lib.rs): the Deck AEAD built on the external `xoofff`
  deck function.  The deck function itself is an external crate and is
  modelled as a deterministic transcript-keyed pseudorandom byte stream.
* `irmaseal-core` identities (src/irmaseal-core/src/identity.rs):
  attributes, policies, hint redaction and the domain-separated policy
  hash `Policy::derive` (SHA3-512 from the external `tiny_keccak` crate is
  modelled as a deterministic digest).
* `pg-core` streaming client (src/pg-core/src/client/rust/stream.rs):
  `Sealer::seal` and `Unsealer::new` / `Unsealer::unseal`.  Material of
  pg-core that is not under src/ (constants, `Header`, artifact types,
  bincode serialization, the external `ibe` KEM and `ibs` signature
  crates) is modelled from the specification, as marked in doc comments.

Rust `u32` / `u64` / `usize` values are `Nat` with explicit `% 2 ^ 32` /
`% 2 ^ 64` wrap-around where the source can overflow.  Fallible Rust code
returns an explicit outcome; Rust panics (slice-index violations,
`.unwrap()` on `Err`, arithmetic overflow in checked positions) are a
distinguished `panicked` outcome, never silently identified with an error
return.
-/

/-- Byte-level mixing step of the model pseudorandom function: a 61-bit
multiply-accumulate (an FNV-style compression), used to model the outputs
of the external cryptographic primitives (Xoofff, SHA3-512, the
identity-based KEM and signature schemes). -/
def mixStep (a b : Nat) : Nat := (a * 1099511628211 + b + 1) % (2 ^ 61)

/-- Compress a byte list into the running accumulator `a`. -/
def mixList (a : Nat) (l : List Nat) : Nat := l.foldl mixStep (mixStep a l.length)

/-- Deterministic pseudorandom byte stream of length `n` derived from a seed.
Every output entry is a byte (smaller than 256). -/
def prfBytes (seed n : Nat) : List Nat := (List.range n).map fun i => mixStep seed i % 256

theorem prfBytes_length (seed n : Nat) : (prfBytes seed n).length = n := by
  simp [prfBytes]

/-- Little-endian byte encoding of `n` into exactly `k` bytes
(`n % 256 ^ k` is what is represented, as for a Rust fixed-width store). -/
def leBytes : Nat → Nat → List Nat
  | 0, _ => []
  | k + 1, n => n % 256 :: leBytes k (n / 256)

/-- Big-endian byte encoding of `n` into exactly `k` bytes; `beBytes 4` is
Rust `u32::to_be_bytes` and `beBytes 8` is `u64::to_be_bytes` (on in-range
values). -/
def beBytes (k n : Nat) : List Nat := (leBytes k n).reverse

theorem leBytes_length (k n : Nat) : (leBytes k n).length = k := by
  induction k generalizing n with
  | zero => rfl
  | succ k ih => simp [leBytes, ih]

theorem beBytes_length (k n : Nat) : (beBytes k n).length = k := by
  simp [beBytes, leBytes_length]

/-- Decode `k` little-endian bytes from the front of a list, returning the
value and the remaining bytes (`none` when fewer than `k` bytes remain). -/
def decLe : Nat → List Nat → Option (Nat × List Nat)
  | 0, l => some (0, l)
  | _ + 1, [] => none
  | k + 1, b :: l => (decLe k l).map fun p => (b + 256 * p.1, p.2)

/-- Decode `k` big-endian bytes from the front of a list. -/
def decBe (k : Nat) (l : List Nat) : Option (Nat × List Nat) :=
  if k ≤ l.length then
    (decLe k (l.take k).reverse).map fun p => (p.1, l.drop k)
  else none

theorem decLe_leBytes (k : Nat) : ∀ (n : Nat) (r : List Nat), n < 256 ^ k →
    decLe k (leBytes k n ++ r) = some (n, r) := by
  induction k with
  | zero => intro n r h; interval_cases n; rfl
  | succ k ih =>
    intro n r h
    have hdiv : n / 256 < 256 ^ k := by
      rw [Nat.div_lt_iff_lt_mul (by norm_num)]
      calc n < 256 ^ (k + 1) := h
        _ = 256 ^ k * 256 := by ring
    simp [leBytes, decLe, ih (n / 256) r hdiv, Nat.mod_add_div']
    omega

theorem decBe_beBytes (k n : Nat) (r : List Nat) (h : n < 256 ^ k) :
    decBe k (beBytes k n ++ r) = some (n, r) := by
  have hlen : (beBytes k n).length = k := beBytes_length k n
  have htake : ((beBytes k n ++ r).take k) = beBytes k n := by
    rw [List.take_append_of_le_length (le_of_eq hlen.symm),
      List.take_of_length_le (le_of_eq hlen)]
  have hdrop : ((beBytes k n ++ r).drop k) = r := by
    rw [List.drop_append_of_le_length (le_of_eq hlen.symm),
      List.drop_of_length_le (le_of_eq hlen), List.nil_append]
  unfold decBe
  rw [if_pos (by simp [hlen]), htake, hdrop]
  unfold beBytes
  rw [List.reverse_reverse]
  have h2 : decLe k (leBytes k n ++ ([] : List Nat)) = some (n, []) := decLe_leBytes k n [] h
  rw [List.append_nil] at h2
  rw [h2]
  rfl

/-- XOR the bytes of `bufIn` into `bufOut` in place, as `Deck::_xor` does:
the iteration is over `zip`, so the length of `bufOut` never changes, and
bytes of `bufOut` beyond the end of `bufIn` are untouched. -/
def xorInto (bufOut bufIn : List Nat) : List Nat :=
  List.zipWith (fun a b => a ^^^ b) bufOut bufIn ++ bufOut.drop bufIn.length

theorem xorInto_length (a b : List Nat) : (xorInto a b).length = a.length := by
  simp [xorInto]
  omega

theorem zipWith_xor_cancel : ∀ (a b : List Nat), b.length = a.length →
    List.zipWith (fun x y => x ^^^ y) (List.zipWith (fun x y => x ^^^ y) a b) b = a
  | [], [], _ => rfl
  | [], _ :: _, h => by simp at h
  | _ :: _, [], h => by simp at h
  | x :: xs, y :: ys, h => by
    simp only [List.zipWith_cons_cons]
    have h2 : ys.length = xs.length := by simpa using h
    rw [zipWith_xor_cancel xs ys h2]
    simp [Nat.xor_cancel_right]

theorem xorInto_eq_zipWith (a b : List Nat) (h : b.length = a.length) :
    xorInto a b = List.zipWith (fun x y => x ^^^ y) a b := by
  simp [xorInto, h]

theorem xorInto_cancel (a b : List Nat) (h : b.length = a.length) :
    xorInto (xorInto a b) b = a := by
  rw [xorInto_eq_zipWith a b h,
    xorInto_eq_zipWith _ b (by rw [List.length_zipWith]; omega)]
  exact zipWith_xor_cancel a b h

/-!
Model of the external `xoofff` crate (the Xoofff deck function used by
src/reck/src/lib.rs).  Modelled from the spec, section 4.2: a deck
function is a keyed pseudorandom function over a sequence of input
strings.  `absorb` accumulates bytes of the current input string,
`finalize` commits the accumulated string together with its
domain-separation bits to the transcript, `squeeze` produces a
deterministic keystream derived from the key and the transcript, and
`restart` clears the absorb buffer so a further string can be absorbed on
top of the same transcript.  The third `finalize` argument (a squeeze
offset) is zero at every call site in the repository and is ignored.
-/

/-- State of the modelled Xoofff deck function. -/
structure Xoofff where
  key : List Nat
  hist : List (List Nat × Nat × Nat)
  buf : List Nat
deriving DecidableEq

/-- Mirrors `Xoofff::new(key)`. -/
def Xoofff.new (key : List Nat) : Xoofff := ⟨key, [], []⟩

/-- Mirrors `xoofff.absorb(data)`. -/
def Xoofff.absorb (x : Xoofff) (data : List Nat) : Xoofff :=
  { x with buf := x.buf ++ data }

/-- Mirrors `xoofff.finalize(ds, ds_bit_len, offset)` (offset unused: it is
zero at every call site). -/
def Xoofff.finalize (x : Xoofff) (ds dsBitLen _offset : Nat) : Xoofff :=
  ⟨x.key, x.hist ++ [(x.buf, ds, dsBitLen)], []⟩

/-- Mirrors `xoofff.restart()`. -/
def Xoofff.restart (x : Xoofff) : Xoofff := { x with buf := [] }

/-- Seed of the pseudorandom keystream: a deterministic digest of the key
and the committed transcript. -/
def Xoofff.seed (x : Xoofff) : Nat :=
  x.hist.foldl (fun a s => mixStep (mixStep (mixList a s.1) s.2.1) s.2.2) (mixList 17 x.key)

/-- Mirrors `xoofff.squeeze(out)` for an output buffer of `n` bytes. -/
def Xoofff.squeeze (x : Xoofff) (n : Nat) : List Nat := prfBytes x.seed n

theorem Xoofff.squeeze_length (x : Xoofff) (n : Nat) : (x.squeeze n).length = n :=
  prfBytes_length _ _

/-!
The Deck AEAD, translated from src/reck/src/lib.rs.
-/

/-- Length of the authentication tags in bytes (`TAG_LEN`). -/
def TAG_LEN : Nat := 32

/-- Length of the domain separation in bits (`DS_BIT_LEN`). -/
def DS_BIT_LEN : Nat := 1

/-- Length of the counter in bytes (`COUNTER_LEN`). -/
def COUNTER_LEN : Nat := 4

/-- Length of the counter plus tag trailer (`COUNTER_TAG_LEN`). -/
def COUNTER_TAG_LEN : Nat := TAG_LEN + COUNTER_LEN

/-- The `reck::Error` type. -/
inductive DeckError where
  | Overflow : DeckError
  | WrongTag : DeckError
deriving DecidableEq

/-- The `reck::Deck` state: the keyed deck function plus the `u32` segment
counter. -/
structure Deck where
  xoofff : Xoofff
  counter : Nat
deriving DecidableEq

/-- Mirrors `Deck::new(key, nonce)`. -/
def Deck.new (key nonce : List Nat) : Deck :=
  let x := Xoofff.new key
  let x := x.absorb nonce
  let x := x.finalize 0 0 0
  let x := x.restart
  ⟨x, 0⟩

/-- Mirrors `Deck::_absorb_finalize_squeeze` (squeezing `outLen` bytes);
returns the restarted deck state and the squeezed output. -/
def absorbFinalizeSqueeze (deck : Xoofff) (msg : List Nat) (domainSeperator : Nat)
    (outLen : Nat) : Xoofff × List Nat :=
  let d := deck.absorb msg
  let d := d.finalize domainSeperator DS_BIT_LEN 0
  let out := d.squeeze outLen
  (d.restart, out)

/-- Mirrors `Deck::_absorb_finalize`. -/
def absorbFinalize (deck : Xoofff) (msg : List Nat) (domainSeperator : Nat) : Xoofff :=
  let d := deck.absorb msg
  d.finalize domainSeperator DS_BIT_LEN 0

/-- Result of `Deck::_wrap` on a `&mut Vec<u8>` buffer: the deck state and
the buffer after the call, plus the returned error if any (the buffer is
extended with the trailer even on the `Overflow` error path, exactly as in
the source, where the error return happens after the two
`extend_from_slice` calls). -/
structure WrapResult where
  deck : Deck
  buf : List Nat
  err : Option DeckError
deriving DecidableEq

/-- Mirrors `Deck::_wrap` (and therefore `Deck::wrap` and
`Deck::wrap_last`, which both simply delegate to it).  The `u32`
`checked_add` fails exactly when the counter is `u32::MAX`. -/
def Deck.wrapM (d : Deck) (plain : List Nat) : WrapResult :=
  let cloned := d.xoofff
  let ctTag :=
    if plain.length > 0 then
      let s1 := absorbFinalizeSqueeze cloned (beBytes 4 d.counter) 0 plain.length
      let ct := xorInto plain s1.2
      let s2 := absorbFinalizeSqueeze s1.1 ct 1 TAG_LEN
      (ct, s2.2)
    else
      let s2 := absorbFinalizeSqueeze cloned (beBytes 4 d.counter) 1 TAG_LEN
      (plain, s2.2)
  let buf := ctTag.1 ++ beBytes 4 d.counter ++ ctTag.2
  if d.counter = 2 ^ 32 - 1 then ⟨d, buf, some DeckError.Overflow⟩
  else ⟨⟨d.xoofff, d.counter + 1⟩, buf, none⟩

/-- Mirrors `Deck::wrap`. -/
def Deck.wrap (d : Deck) (plain : List Nat) : WrapResult := d.wrapM plain

/-- Mirrors `Deck::wrap_last` (same computation; the Rust signature merely
consumes the deck). -/
def Deck.wrap_last (d : Deck) (plain : List Nat) : WrapResult := d.wrapM plain

/-- Mirrors `Deck::_unwrap` (and `Deck::unwrap` / `Deck::unwrap_last`).
`none` is a Rust panic: for a buffer shorter than `COUNTER_LEN` the slice
expressions `&cipher[COUNTER_LEN..]` and `&cipher[..COUNTER_LEN]` are out
of bounds.  Otherwise the result carries the deck state (never modified by
the source), the buffer after the call, and the returned error if any: on
a tag mismatch the buffer is returned unmodified, before any keystream is
applied. -/
def Deck.unwrapM (d : Deck) (cipher : List Nat) : Option (Deck × List Nat × Option DeckError) :=
  if cipher.length < COUNTER_LEN then none
  else
    let cloned := d.xoofff
    if cipher.length > COUNTER_TAG_LEN then
      let ct := cipher.take (cipher.length - COUNTER_TAG_LEN)
      let tag := cipher.drop (cipher.length - TAG_LEN)
      let counter := (cipher.drop (cipher.length - COUNTER_TAG_LEN)).take COUNTER_LEN
      let cloned := absorbFinalize cloned counter 0
      let cloned2 := cloned
      let cloned := cloned.restart
      let cloned := absorbFinalize cloned ct 1
      let tagPrime := cloned.squeeze TAG_LEN
      if tag ≠ tagPrime then some (d, cipher, some DeckError.WrongTag)
      else
        let squeezed := cloned2.squeeze (cipher.length - COUNTER_TAG_LEN)
        let buf := xorInto cipher squeezed
        some (d, buf.take (cipher.length - COUNTER_TAG_LEN), none)
    else
      let tag := cipher.drop COUNTER_LEN
      let counter := cipher.take COUNTER_LEN
      let cloned := absorbFinalize cloned counter 1
      let tagPrime := cloned.squeeze TAG_LEN
      if tag ≠ tagPrime then some (d, cipher, some DeckError.WrongTag)
      else some (d, cipher.take (cipher.length - COUNTER_TAG_LEN), none)

/-- Mirrors `Deck::unwrap`. -/
def Deck.unwrap (d : Deck) (ct : List Nat) : Option (Deck × List Nat × Option DeckError) :=
  d.unwrapM ct

/-- Mirrors `Deck::unwrap_last`. -/
def Deck.unwrap_last (d : Deck) (ct : List Nat) : Option (Deck × List Nat × Option DeckError) :=
  d.unwrapM ct

/-!
Structural lemmas about `Deck::_wrap` and `Deck::_unwrap`.
-/

theorem Deck.wrapM_buf_shape (d : Deck) (p : List Nat) :
    ∃ ct tag : List Nat, ct.length = p.length ∧ tag.length = TAG_LEN ∧
      (d.wrapM p).buf = ct ++ beBytes 4 d.counter ++ tag := by
  unfold Deck.wrapM
  by_cases hp : p.length > 0
  · simp only [hp, if_pos]
    by_cases hc : d.counter = 2 ^ 32 - 1 <;>
      simp only [hc, if_pos, if_neg, if_true, if_false, reduceIte] <;>
      exact ⟨_, _, xorInto_length _ _, Xoofff.squeeze_length _ _, rfl⟩
  · simp only [hp, if_neg, if_false, reduceIte]
    by_cases hc : d.counter = 2 ^ 32 - 1 <;>
      simp only [hc, if_pos, if_neg, if_true, if_false, reduceIte] <;>
      exact ⟨p, _, rfl, Xoofff.squeeze_length _ _, rfl⟩

theorem Deck.wrapM_err_iff (d : Deck) (p : List Nat) :
    (d.wrapM p).err = some DeckError.Overflow ↔ d.counter = 2 ^ 32 - 1 := by
  unfold Deck.wrapM
  by_cases hc : d.counter = 2 ^ 32 - 1
  · rw [if_pos hc]
    simpa using hc
  · rw [if_neg hc]
    simpa using hc

theorem Deck.wrapM_ok (d : Deck) (p : List Nat) (h : d.counter ≠ 2 ^ 32 - 1) :
    (d.wrapM p).err = none ∧ (d.wrapM p).deck = ⟨d.xoofff, d.counter + 1⟩ := by
  unfold Deck.wrapM
  rw [if_neg h]
  exact ⟨rfl, rfl⟩


theorem Deck.wrapM_buf_length (d : Deck) (p : List Nat) :
    (d.wrapM p).buf.length = p.length + COUNTER_TAG_LEN := by
  obtain ⟨ct, tag, hct, htag, hbuf⟩ := d.wrapM_buf_shape p
  rw [hbuf, List.length_append, List.length_append, beBytes_length, hct, htag]
  unfold COUNTER_TAG_LEN TAG_LEN COUNTER_LEN
  omega

theorem take_len_left (a b : List Nat) : (a ++ b).take a.length = a := by
  simpa using List.take_left a b

theorem drop_len_left (a b : List Nat) : (a ++ b).drop a.length = b := by
  simpa using List.drop_left a b

theorem Deck.wrapM_trailer (d : Deck) (p : List Nat) :
    ((d.wrapM p).buf.drop p.length).take COUNTER_LEN = beBytes 4 d.counter ∧
      (((d.wrapM p).buf.drop p.length).drop COUNTER_LEN).length = TAG_LEN := by
  obtain ⟨ct, tag, hct, htag, hbuf⟩ := d.wrapM_buf_shape p
  have h4 : (beBytes 4 d.counter).length = 4 := beBytes_length 4 d.counter
  rw [hbuf, List.append_assoc, ← hct, drop_len_left]
  constructor
  · rw [show COUNTER_LEN = (beBytes 4 d.counter).length from h4.symm, take_len_left]
  · rw [show COUNTER_LEN = (beBytes 4 d.counter).length from h4.symm, drop_len_left, htag]

theorem xorInto_take_left (ct rest ks : List Nat) (h : ks.length = ct.length) :
    (xorInto (ct ++ rest) ks).take ct.length = xorInto ct ks := by
  have hz : List.zipWith (fun a b => a ^^^ b) (ct ++ rest) (ks ++ []) =
      List.zipWith (fun a b => a ^^^ b) ct ks ++
        List.zipWith (fun a b => a ^^^ b) rest [] :=
    List.zipWith_append _ _ _ _ _ h.symm
  simp only [List.append_nil, List.zipWith_nil_right] at hz
  unfold xorInto
  rw [hz]
  have hzl : (List.zipWith (fun a b => a ^^^ b) ct ks).length = ct.length := by
    simp [h]
  rw [List.take_append_of_le_length (le_of_eq hzl.symm),
    List.take_of_length_le (le_of_eq hzl), h, List.drop_length, List.append_nil]

/-- Evaluation of `Deck::_unwrap` on a buffer presented as
ciphertext/counter/tag pieces (the branch for buffers longer than the
36-byte trailer). -/
theorem Deck.unwrapM_big (X : Xoofff) (c2 : Nat) (ct cb tg : List Nat)
    (hcb : cb.length = COUNTER_LEN) (htg : tg.length = TAG_LEN) (hct : 0 < ct.length) :
    Deck.unwrapM ⟨X, c2⟩ (ct ++ cb ++ tg) =
      if tg ≠ (absorbFinalize ((absorbFinalize X cb 0).restart) ct 1).squeeze TAG_LEN
      then some (⟨X, c2⟩, ct ++ cb ++ tg, some DeckError.WrongTag)
      else some (⟨X, c2⟩, xorInto ct ((absorbFinalize X cb 0).squeeze ct.length), none) := by
  have hL : (ct ++ cb ++ tg).length = ct.length + 36 := by
    rw [List.length_append, List.length_append, hcb, htg]
    unfold COUNTER_LEN TAG_LEN
    omega
  have e4 : (ct ++ cb ++ tg).length - COUNTER_TAG_LEN = ct.length := by
    rw [hL]; unfold COUNTER_TAG_LEN TAG_LEN COUNTER_LEN; omega
  have e1 : (ct ++ cb ++ tg).take ct.length = ct := by
    rw [List.append_assoc, take_len_left]
  have e2 : (ct ++ cb ++ tg).drop ((ct ++ cb ++ tg).length - TAG_LEN) = tg := by
    have h2 : (ct ++ cb ++ tg).length - TAG_LEN = (ct ++ cb).length := by
      rw [hL, List.length_append, hcb]; unfold TAG_LEN COUNTER_LEN; omega
    rw [h2, drop_len_left]
  have e3 : ((ct ++ cb ++ tg).drop ct.length).take COUNTER_LEN = cb := by
    rw [List.append_assoc, drop_len_left,
      show COUNTER_LEN = cb.length from hcb.symm, take_len_left]
  have e5 : ∀ sq : List Nat, sq.length = ct.length →
      (xorInto (ct ++ cb ++ tg) sq).take ct.length = xorInto ct sq := by
    intro sq hsq
    rw [List.append_assoc]
    exact xorInto_take_left ct (cb ++ tg) sq hsq
  unfold Deck.unwrapM
  rw [if_neg (by rw [hL]; unfold COUNTER_LEN; omega),
    if_pos (by rw [hL]; unfold COUNTER_TAG_LEN TAG_LEN COUNTER_LEN; omega)]
  simp only [e4]
  simp only [e1, e2, e3]
  by_cases hmatch :
      tg = (absorbFinalize ((absorbFinalize X cb 0).restart) ct 1).squeeze TAG_LEN
  · rw [if_neg (not_not_intro hmatch), if_neg (not_not_intro hmatch)]
    rw [e5 _ (Xoofff.squeeze_length _ _)]
  · rw [if_pos hmatch, if_pos hmatch]

/-- Evaluation of `Deck::_unwrap` on a trailer-only 36-byte buffer (the
branch for buffers no longer than the trailer; the empty-plaintext case). -/
theorem Deck.unwrapM_small (X : Xoofff) (c2 : Nat) (cb tg : List Nat)
    (hcb : cb.length = COUNTER_LEN) (htg : tg.length = TAG_LEN) :
    Deck.unwrapM ⟨X, c2⟩ (cb ++ tg) =
      if tg ≠ (absorbFinalize X cb 1).squeeze TAG_LEN
      then some (⟨X, c2⟩, cb ++ tg, some DeckError.WrongTag)
      else some (⟨X, c2⟩, [], none) := by
  have hL : (cb ++ tg).length = 36 := by
    rw [List.length_append, hcb, htg]
    unfold COUNTER_LEN TAG_LEN
    omega
  have e1 : (cb ++ tg).take COUNTER_LEN = cb := by
    rw [show COUNTER_LEN = cb.length from hcb.symm, take_len_left]
  have e2 : (cb ++ tg).drop COUNTER_LEN = tg := by
    rw [show COUNTER_LEN = cb.length from hcb.symm, drop_len_left]
  unfold Deck.unwrapM
  rw [if_neg (by rw [hL]; unfold COUNTER_LEN; omega),
    if_neg (by rw [hL]; unfold COUNTER_TAG_LEN TAG_LEN COUNTER_LEN; omega)]
  simp only [e1, e2]
  by_cases hmatch : tg = (absorbFinalize X cb 1).squeeze TAG_LEN
  · rw [if_neg (not_not_intro hmatch), if_neg (not_not_intro hmatch)]
    rw [hL]
    have h0 : (36 : Nat) - COUNTER_TAG_LEN = 0 := by
      unfold COUNTER_TAG_LEN TAG_LEN COUNTER_LEN; omega
    rw [h0, List.take_zero]
  · rw [if_pos hmatch, if_pos hmatch]

theorem Deck.wrapM_buf_big (X : Xoofff) (c : Nat) (p : List Nat) (hp : 0 < p.length) :
    (Deck.wrapM ⟨X, c⟩ p).buf =
      xorInto p ((absorbFinalize X (beBytes 4 c) 0).squeeze p.length) ++ beBytes 4 c ++
        (absorbFinalize ((absorbFinalize X (beBytes 4 c) 0).restart)
          (xorInto p ((absorbFinalize X (beBytes 4 c) 0).squeeze p.length)) 1).squeeze
          TAG_LEN := by
  unfold Deck.wrapM absorbFinalizeSqueeze absorbFinalize
  by_cases hc : c = 2 ^ 32 - 1
  · simp [hp, hc, List.append_assoc]
  · norm_num at hc
    simp [hp, hc, List.append_assoc]

theorem Deck.wrapM_buf_nil (X : Xoofff) (c : Nat) :
    (Deck.wrapM ⟨X, c⟩ []).buf =
      beBytes 4 c ++ (absorbFinalize X (beBytes 4 c) 1).squeeze TAG_LEN := by
  unfold Deck.wrapM absorbFinalizeSqueeze absorbFinalize
  by_cases hc : c = 2 ^ 32 - 1
  · simp [hc]
  · norm_num at hc
    simp [hc]

/-- The single-segment round trip at the heart of the Deck AEAD: a wrapped
buffer unwraps (under any deck sharing the same keyed state, whatever its
counter, since `_unwrap` reads the counter from the trailer) back to the
original plaintext with no error, and the unwrapping deck state is
untouched. -/
theorem Deck.unwrap_wrapM (X : Xoofff) (c c2 : Nat) (p : List Nat) :
    Deck.unwrapM ⟨X, c2⟩ ((Deck.wrapM ⟨X, c⟩ p).buf) = some (⟨X, c2⟩, p, none) := by
  have h4 : (beBytes 4 c).length = COUNTER_LEN := beBytes_length 4 c
  by_cases hp : 0 < p.length
  · set ks := (absorbFinalize X (beBytes 4 c) 0).squeeze p.length with hks
    have hksl : ks.length = p.length := Xoofff.squeeze_length _ _
    set ct := xorInto p ks with hctdef
    have hctl : ct.length = p.length := xorInto_length _ _
    set tg := (absorbFinalize ((absorbFinalize X (beBytes 4 c) 0).restart) ct 1).squeeze
        TAG_LEN with htgdef
    have htgl : tg.length = TAG_LEN := Xoofff.squeeze_length _ _
    rw [Deck.wrapM_buf_big X c p hp, ← hks, ← hctdef, ← htgdef]
    rw [Deck.unwrapM_big X c2 ct (beBytes 4 c) tg h4 htgl (by omega)]
    rw [if_neg (by rw [htgdef]; simp)]
    rw [hctl, ← hks, hctdef, xorInto_cancel p ks (by omega)]
  · have hp0 : p = [] := List.length_eq_zero.mp (by omega)
    subst hp0
    rw [Deck.wrapM_buf_nil X c]
    rw [Deck.unwrapM_small X c2 (beBytes 4 c) _ h4 (Xoofff.squeeze_length _ _)]
    rw [if_neg (by simp)]

/-- Repeated wrapping with one Deck: the sequence of `wrap` calls the
sealer performs on a stream of segment buffers, aborting on the first
error.  Returns the final deck state and the wire segments. -/
def wrapAll : Deck → List (List Nat) → Option (Deck × List (List Nat))
  | d, [] => some (d, [])
  | d, p :: ps =>
    let w := d.wrap p
    match w.err with
    | some _ => none
    | none => (wrapAll w.deck ps).map fun r => (r.1, w.buf :: r.2)

/-- Repeated unwrapping with one Deck, aborting on a panic or an error. -/
def unwrapAll : Deck → List (List Nat) → Option (Deck × List (List Nat))
  | d, [] => some (d, [])
  | d, c :: cs =>
    match d.unwrap c with
    | some (d2, b, none) => (unwrapAll d2 cs).map fun r => (r.1, b :: r.2)
    | _ => none

theorem wrapAll_unwrapAll (X : Xoofff) : ∀ (plains : List (List Nat)) (c : Nat),
    c + plains.length < 2 ^ 32 →
    ∃ cts, wrapAll ⟨X, c⟩ plains = some (⟨X, c + plains.length⟩, cts) ∧
      ∀ c2, unwrapAll ⟨X, c2⟩ cts = some (⟨X, c2⟩, plains) := by
  intro plains
  induction plains with
  | nil =>
    intro c h
    exact ⟨[], by simp [wrapAll], fun c2 => by simp [unwrapAll]⟩
  | cons p ps ih =>
    intro c h
    have hc : c ≠ 2 ^ 32 - 1 := by
      simp only [List.length_cons] at h
      omega
    obtain ⟨werr, wdeck⟩ := Deck.wrapM_ok ⟨X, c⟩ p hc
    obtain ⟨cts, hw, hu⟩ := ih (c + 1) (by simp only [List.length_cons] at h; omega)
    refine ⟨(Deck.wrapM ⟨X, c⟩ p).buf :: cts, ?_, ?_⟩
    · have harith : c + 1 + ps.length = c + (p :: ps).length := by
        simp only [List.length_cons]
        omega
      simp only [wrapAll, Deck.wrap, werr, wdeck, harith, hw]
      rfl
    · intro c2
      simp only [unwrapAll, Deck.unwrap, Deck.unwrap_wrapM X c c2 p, hu c2]
      rfl

/-- C6: for every key, nonce, and plaintext buffer (including the empty
buffer), wrapping with a Deck initialized from the pair and unwrapping the
produced buffers with a fresh Deck initialized from the same pair (hence
the same counter sequence) succeeds and restores the plaintexts exactly;
likewise a `wrap_last` followed by an `unwrap_last`.  The segment-count
bound keeps the `u32` counter from its `Overflow` value. -/
theorem wrap_unwrap_roundtrip (key nonce : List Nat) (plains : List (List Nat))
    (h : plains.length < 2 ^ 32) :
    (∃ cts, (wrapAll (Deck.new key nonce) plains).map (fun r => r.2) = some cts ∧
        (unwrapAll (Deck.new key nonce) cts).map (fun r => r.2) = some plains) ∧
    ∀ p : List Nat,
      ((Deck.new key nonce).wrap_last p).err = none ∧
      (Deck.new key nonce).unwrap_last (((Deck.new key nonce).wrap_last p).buf) =
        some (Deck.new key nonce, p, none) := by
  constructor
  · obtain ⟨cts, hw, hu⟩ :=
      wrapAll_unwrapAll ((((Xoofff.new key).absorb nonce).finalize 0 0 0).restart) plains 0
        (by omega)
    refine ⟨cts, ?_, ?_⟩
    · rw [show Deck.new key nonce =
        (⟨(((Xoofff.new key).absorb nonce).finalize 0 0 0).restart, 0⟩ : Deck) from rfl, hw]
      rfl
    · rw [show Deck.new key nonce =
        (⟨(((Xoofff.new key).absorb nonce).finalize 0 0 0).restart, 0⟩ : Deck) from rfl, hu 0]
      rfl
  · intro p
    refine ⟨(Deck.wrapM_ok _ p (by simp [Deck.new])).1, ?_⟩
    exact Deck.unwrap_wrapM _ 0 0 p

theorem wrap_unwrap_roundtrip_witness :
    ([[3], [4], []] : List (List Nat)).length < 2 ^ 32 ∧
    ((∃ cts, (wrapAll (Deck.new [1] [2]) [[3], [4], []]).map (fun r => r.2) = some cts ∧
        (unwrapAll (Deck.new [1] [2]) cts).map (fun r => r.2) = some [[3], [4], []]) ∧
      ∀ p : List Nat,
        ((Deck.new [1] [2]).wrap_last p).err = none ∧
        (Deck.new [1] [2]).unwrap_last (((Deck.new [1] [2]).wrap_last p).buf) =
          some (Deck.new [1] [2], p, none)) :=
  ⟨by norm_num, wrap_unwrap_roundtrip [1] [2] [[3], [4], []] (by norm_num)⟩

/-- C5: `Deck::wrap` appends exactly the 4-byte big-endian current counter
followed by the 32-byte tag (output length is input length plus 36); two
wraps in a row on a fresh Deck write counters 0 and then 1 in their
trailers; and `wrap` fails with `Overflow` exactly when incrementing the
`u32` counter would wrap around, that is, when the counter is at
`u32::MAX`. -/
theorem wrap_appends_counter_and_tag :
    (∀ (d : Deck) (p : List Nat),
        (d.wrap p).buf.length = p.length + 36 ∧
        ((d.wrap p).buf.drop p.length).take COUNTER_LEN = beBytes 4 d.counter ∧
        (((d.wrap p).buf.drop p.length).drop COUNTER_LEN).length = TAG_LEN) ∧
    (∀ key nonce p0 p1 : List Nat,
        (((Deck.new key nonce).wrap p0).buf.drop p0.length).take COUNTER_LEN =
          beBytes 4 0 ∧
        ((Deck.new key nonce).wrap p0).err = none ∧
        ((Deck.new key nonce).wrap p0).deck.counter = 1 ∧
        ((((Deck.new key nonce).wrap p0).deck.wrap p1).buf.drop p1.length).take COUNTER_LEN =
          beBytes 4 1) ∧
    (∀ (d : Deck) (p : List Nat),
        (d.wrap p).err = some DeckError.Overflow ↔ d.counter = 2 ^ 32 - 1) := by
  refine ⟨fun d p => ⟨?_, (d.wrapM_trailer p).1, (d.wrapM_trailer p).2⟩,
    fun key nonce p0 p1 => ?_, fun d p => d.wrapM_err_iff p⟩
  · have hl := d.wrapM_buf_length p
    unfold COUNTER_TAG_LEN TAG_LEN COUNTER_LEN at hl
    rw [Deck.wrap, hl]
  · obtain ⟨werr, wdeck⟩ := Deck.wrapM_ok (Deck.new key nonce) p0 (by simp [Deck.new])
    have ht0 := ((Deck.new key nonce).wrapM_trailer p0).1
    have hc0 : (Deck.new key nonce).counter = 0 := rfl
    have ht1 := (((Deck.new key nonce).wrap p0).deck.wrapM_trailer p1).1
    have hc1 : ((Deck.new key nonce).wrap p0).deck.counter = 1 := by
      rw [Deck.wrap, wdeck]
      rfl
    refine ⟨by rw [Deck.wrap, ← hc0]; exact ht0, werr, hc1, by rw [← hc1]; exact ht1⟩

/-- The trailing tag region of the input buffer as read by `Deck::_unwrap`
(the trailing 32 bytes when the buffer is longer than the 36-byte trailer;
everything after the 4 counter bytes otherwise). -/
def unwrapTagRegion (cipher : List Nat) : List Nat :=
  if cipher.length > COUNTER_TAG_LEN then cipher.drop (cipher.length - TAG_LEN)
  else cipher.drop COUNTER_LEN

/-- The tag recomputed by `Deck::_unwrap` from the counter bytes and the
ciphertext part of the buffer, following the same two branches as the
source. -/
def unwrapRecomputedTag (d : Deck) (cipher : List Nat) : List Nat :=
  if cipher.length > COUNTER_TAG_LEN then
    (absorbFinalize
      ((absorbFinalize d.xoofff
        ((cipher.drop (cipher.length - COUNTER_TAG_LEN)).take COUNTER_LEN) 0).restart)
      (cipher.take (cipher.length - COUNTER_TAG_LEN)) 1).squeeze TAG_LEN
  else (absorbFinalize d.xoofff (cipher.take COUNTER_LEN) 1).squeeze TAG_LEN

/-- Core tag-mismatch lemma for `Deck::_unwrap`: whenever the recomputed
tag differs from the tag region of the buffer, the call returns
`Err(WrongTag)` and leaves the buffer exactly as it was. -/
theorem Deck.unwrapM_wrongtag (d : Deck) (cipher : List Nat)
    (hlen : COUNTER_LEN ≤ cipher.length)
    (hne : unwrapTagRegion cipher ≠ unwrapRecomputedTag d cipher) :
    d.unwrapM cipher = some (d, cipher, some DeckError.WrongTag) := by
  unfold Deck.unwrapM
  rw [if_neg (by unfold COUNTER_LEN at hlen ⊢; omega)]
  unfold unwrapTagRegion unwrapRecomputedTag at hne
  by_cases hbig : cipher.length > COUNTER_TAG_LEN
  · simp only [hbig, ite_true, if_true, reduceIte] at hne ⊢
    rw [if_pos hne]
  · simp only [hbig, ite_false, if_false, reduceIte] at hne ⊢
    rw [if_pos hne]

/-- C7: whenever the tag recomputed by `Deck::unwrap` or
`Deck::unwrap_last` differs from the trailing tag region of the input
buffer, the call returns `Err(WrongTag)` and the buffer is left completely
unmodified: no keystream is applied and no plaintext is revealed. -/
theorem unwrap_wrongtag_leaves_buffer (d : Deck) (cipher : List Nat)
    (hlen : COUNTER_LEN ≤ cipher.length)
    (hne : unwrapTagRegion cipher ≠ unwrapRecomputedTag d cipher) :
    d.unwrap cipher = some (d, cipher, some DeckError.WrongTag) ∧
      d.unwrap_last cipher = some (d, cipher, some DeckError.WrongTag) :=
  ⟨Deck.unwrapM_wrongtag d cipher hlen hne, Deck.unwrapM_wrongtag d cipher hlen hne⟩

theorem unwrap_wrongtag_leaves_buffer_witness :
    COUNTER_LEN ≤ (List.replicate 40 0).length ∧
    unwrapTagRegion (List.replicate 40 0) ≠
      unwrapRecomputedTag (Deck.new [1] [2]) (List.replicate 40 0) ∧
    ((Deck.new [1] [2]).unwrap (List.replicate 40 0) =
        some (Deck.new [1] [2], List.replicate 40 0, some DeckError.WrongTag) ∧
      (Deck.new [1] [2]).unwrap_last (List.replicate 40 0) =
        some (Deck.new [1] [2], List.replicate 40 0, some DeckError.WrongTag)) :=
  ⟨by decide, by decide,
    unwrap_wrongtag_leaves_buffer (Deck.new [1] [2]) (List.replicate 40 0)
      (by decide) (by decide)⟩

/-- C10: `Deck::unwrap` and `Deck::unwrap_last` return a value at all only
when the buffer holds at least the 4 counter bytes: for buffers of length
4 to 35 they return `Err(WrongTag)` (the tag region is shorter than the 32
recomputed tag bytes, so the comparison always fails), while for buffers
shorter than 4 bytes the slice indexing of the counter and tag regions is
out of bounds and the embedded function's result is the panic marker
`none`, not a `WrongTag` return. -/
theorem unwrap_short_buffer_behavior (d : Deck) (cipher : List Nat) :
    (cipher.length < COUNTER_LEN →
      d.unwrap cipher = none ∧ d.unwrap_last cipher = none) ∧
    (COUNTER_LEN ≤ cipher.length → cipher.length ≤ 35 →
      d.unwrap cipher = some (d, cipher, some DeckError.WrongTag) ∧
      d.unwrap_last cipher = some (d, cipher, some DeckError.WrongTag)) := by
  constructor
  · intro hshort
    have h : d.unwrapM cipher = none := by
      unfold Deck.unwrapM
      rw [if_pos hshort]
    exact ⟨h, h⟩
  · intro h4 h35
    have hsmall : ¬cipher.length > COUNTER_TAG_LEN := by
      unfold COUNTER_TAG_LEN TAG_LEN COUNTER_LEN
      omega
    have hne : unwrapTagRegion cipher ≠ unwrapRecomputedTag d cipher := by
      intro heq
      have hlen := congrArg List.length heq
      rw [unwrapTagRegion, unwrapRecomputedTag, if_neg hsmall, if_neg hsmall,
        List.length_drop, Xoofff.squeeze_length] at hlen
      unfold COUNTER_LEN at h4
      unfold COUNTER_LEN TAG_LEN at hlen
      omega
    exact ⟨Deck.unwrapM_wrongtag d cipher h4 hne, Deck.unwrapM_wrongtag d cipher h4 hne⟩

theorem unwrap_short_buffer_behavior_witness :
    (([0, 0, 0] : List Nat).length < COUNTER_LEN ∧
      (Deck.new [1] [2]).unwrap [0, 0, 0] = none ∧
      (Deck.new [1] [2]).unwrap_last [0, 0, 0] = none) ∧
    (COUNTER_LEN ≤ (List.replicate 10 7).length ∧ (List.replicate 10 7).length ≤ 35 ∧
      (Deck.new [1] [2]).unwrap (List.replicate 10 7) =
        some (Deck.new [1] [2], List.replicate 10 7, some DeckError.WrongTag) ∧
      (Deck.new [1] [2]).unwrap_last (List.replicate 10 7) =
        some (Deck.new [1] [2], List.replicate 10 7, some DeckError.WrongTag)) :=
  ⟨⟨by decide,
      (unwrap_short_buffer_behavior (Deck.new [1] [2]) [0, 0, 0]).1 (by decide)⟩,
    ⟨by decide, by decide,
      (unwrap_short_buffer_behavior (Deck.new [1] [2]) (List.replicate 10 7)).2
        (by decide) (by decide)⟩⟩

/-!
Identities and policies, translated from src/irmaseal-core/src/identity.rs.
Rust `String` values are represented by their UTF-8 byte lists; `ascii`
builds the byte list of an ASCII string literal.
-/

/-- Byte list of an ASCII string literal. -/
def ascii (s : String) : List Nat := s.data.map Char.toNat

/-- Mirrors `IDENTITY_UNSET: u64 = u64::MAX`. -/
def IDENTITY_UNSET : Nat := 2 ^ 64 - 1

/-- Mirrors `MAX_CON = (IDENTITY_UNSET as usize - 1) >> 1` on the 64-bit
targets the repository builds for (so `usize` holds the full `u64`). -/
def MAX_CON : Nat := (IDENTITY_UNSET - 1) / 2

/-- Mirrors `AMOUNT_CHARS_TO_HIDE`. -/
def AMOUNT_CHARS_TO_HIDE : Nat := 4

/-- An IRMAseal attribute: `atype` and optional `value`, both UTF-8 byte
lists. -/
structure Attribute where
  atype : List Nat
  value : Option (List Nat)
deriving DecidableEq

/-- An IRMAseal policy: a timestamp (`u64`) and a conjunction of
attributes. -/
structure Policy where
  timestamp : Nat
  con : List Attribute
deriving DecidableEq

/-- Byte-wise lexicographic comparison: Rust `Ord` for `String` on the
UTF-8 bytes. -/
def cmpBytes : List Nat → List Nat → Ordering
  | [], [] => Ordering.eq
  | [], _ :: _ => Ordering.lt
  | _ :: _, [] => Ordering.gt
  | a :: abody, b :: bbody =>
    if a < b then Ordering.lt else if b < a then Ordering.gt else cmpBytes abody bbody

/-- Rust `Ord` for `Option<String>`: `None` sorts before `Some`. -/
def cmpOptBytes : Option (List Nat) → Option (List Nat) → Ordering
  | none, none => Ordering.eq
  | none, some _ => Ordering.lt
  | some _, none => Ordering.gt
  | some a, some b => cmpBytes a b

/-- The derived Rust `Ord` on `Attribute`: lexicographic on
`(atype, value)`. -/
def Attribute.cmp (x y : Attribute) : Ordering :=
  match cmpBytes x.atype y.atype with
  | Ordering.eq => cmpOptBytes x.value y.value
  | o => o

/-- The non-strict order used when sorting a conjunction. -/
def attrLE (x y : Attribute) : Prop := x.cmp y ≠ Ordering.gt

instance : DecidableRel attrLE := fun x y =>
  inferInstanceAs (Decidable (x.cmp y ≠ Ordering.gt))

theorem cmpBytes_eq_iff : ∀ (a b : List Nat), cmpBytes a b = Ordering.eq ↔ a = b
  | [], [] => by simp [cmpBytes]
  | [], _ :: _ => by simp [cmpBytes]
  | _ :: _, [] => by simp [cmpBytes]
  | x :: xs, y :: ys => by
    unfold cmpBytes
    by_cases h1 : x < y
    · rw [if_pos h1]
      simp only [List.cons.injEq]
      constructor
      · intro h; exact Ordering.noConfusion h
      · rintro ⟨he, _⟩; omega
    · rw [if_neg h1]
      by_cases h2 : y < x
      · rw [if_pos h2]
        simp only [List.cons.injEq]
        constructor
        · intro h; exact Ordering.noConfusion h
        · rintro ⟨he, _⟩; omega
      · rw [if_neg h2]
        have hxy : x = y := by omega
        rw [cmpBytes_eq_iff xs ys]
        simp [hxy]

theorem cmpBytes_swap : ∀ (a b : List Nat), (cmpBytes a b).swap = cmpBytes b a
  | [], [] => rfl
  | [], _ :: _ => rfl
  | _ :: _, [] => rfl
  | x :: xs, y :: ys => by
    unfold cmpBytes
    by_cases h1 : x < y
    · rw [if_pos h1, if_neg (show ¬y < x by omega), if_pos h1]
      rfl
    · by_cases h2 : y < x
      · rw [if_neg h1, if_pos h2, if_pos h2]
        rfl
      · rw [if_neg h1, if_neg h2, if_neg h2, if_neg h1]
        exact cmpBytes_swap xs ys

theorem cmpBytes_lt_trans : ∀ (a b c : List Nat), cmpBytes a b = Ordering.lt →
    cmpBytes b c = Ordering.lt → cmpBytes a c = Ordering.lt
  | [], [], _, h1, _ => by simp [cmpBytes] at h1
  | [], _ :: _, [], _, h2 => by simp [cmpBytes] at h2
  | [], _ :: _, _ :: _, _, _ => by simp [cmpBytes]
  | _ :: _, [], _, h1, _ => by simp [cmpBytes] at h1
  | _ :: _, _ :: _, [], _, h2 => by simp [cmpBytes] at h2
  | x :: xs, y :: ys, z :: zs, h1, h2 => by
    unfold cmpBytes at h1 h2 ⊢
    by_cases hxy : x < y
    · by_cases hyz : y < z
      · rw [if_pos (show x < z by omega)]
      · rw [if_neg hyz] at h2
        by_cases hzy : z < y
        · rw [if_pos hzy] at h2
          exact Ordering.noConfusion h2
        · rw [if_pos (show x < z by omega)]
    · rw [if_neg hxy] at h1
      by_cases hyx : y < x
      · rw [if_pos hyx] at h1
        exact Ordering.noConfusion h1
      · rw [if_neg hyx] at h1
        by_cases hyz : y < z
        · rw [if_pos (show x < z by omega)]
        · rw [if_neg hyz] at h2
          by_cases hzy : z < y
          · rw [if_pos hzy] at h2
            exact Ordering.noConfusion h2
          · rw [if_neg hzy] at h2
            rw [if_neg (show ¬x < z by omega), if_neg (show ¬z < x by omega)]
            exact cmpBytes_lt_trans xs ys zs h1 h2

theorem cmpOptBytes_eq_iff (a b : Option (List Nat)) :
    cmpOptBytes a b = Ordering.eq ↔ a = b := by
  cases a <;> cases b <;> simp [cmpOptBytes, cmpBytes_eq_iff]

theorem cmpOptBytes_swap (a b : Option (List Nat)) :
    (cmpOptBytes a b).swap = cmpOptBytes b a := by
  cases a <;> cases b
  · rfl
  · rfl
  · rfl
  · exact cmpBytes_swap _ _

theorem cmpOptBytes_lt_trans (a b c : Option (List Nat))
    (h1 : cmpOptBytes a b = Ordering.lt) (h2 : cmpOptBytes b c = Ordering.lt) :
    cmpOptBytes a c = Ordering.lt := by
  cases a <;> cases b <;> cases c <;>
    simp_all [cmpOptBytes]
  exact cmpBytes_lt_trans _ _ _ h1 h2

theorem Attribute.cmp_eq_iff (x y : Attribute) : x.cmp y = Ordering.eq ↔ x = y := by
  unfold Attribute.cmp
  cases hc : cmpBytes x.atype y.atype with
  | eq =>
    rw [cmpBytes_eq_iff] at hc
    simp only [cmpOptBytes_eq_iff]
    cases x; cases y
    simp_all
  | lt =>
    have : x.atype ≠ y.atype := fun he => by
      rw [he, (cmpBytes_eq_iff _ _).mpr rfl] at hc
      exact Ordering.noConfusion hc
    constructor
    · intro h; exact Ordering.noConfusion h
    · intro h; exact absurd (congrArg Attribute.atype h) this
  | gt =>
    have : x.atype ≠ y.atype := fun he => by
      rw [he, (cmpBytes_eq_iff _ _).mpr rfl] at hc
      exact Ordering.noConfusion hc
    constructor
    · intro h; exact Ordering.noConfusion h
    · intro h; exact absurd (congrArg Attribute.atype h) this

theorem Attribute.cmp_swap (x y : Attribute) : (x.cmp y).swap = y.cmp x := by
  unfold Attribute.cmp
  cases hc : cmpBytes x.atype y.atype with
  | eq =>
    have hc2 : cmpBytes y.atype x.atype = Ordering.eq := by
      rw [← cmpBytes_swap, hc]; rfl
    rw [hc2]
    exact cmpOptBytes_swap _ _
  | lt =>
    have hc2 : cmpBytes y.atype x.atype = Ordering.gt := by
      rw [← cmpBytes_swap, hc]; rfl
    rw [hc2]
    rfl
  | gt =>
    have hc2 : cmpBytes y.atype x.atype = Ordering.lt := by
      rw [← cmpBytes_swap, hc]; rfl
    rw [hc2]
    rfl

theorem Attribute.cmp_lt_trans (x y z : Attribute) (h1 : x.cmp y = Ordering.lt)
    (h2 : y.cmp z = Ordering.lt) : x.cmp z = Ordering.lt := by
  unfold Attribute.cmp at h1 h2 ⊢
  cases hxy : cmpBytes x.atype y.atype with
  | gt => rw [hxy] at h1; exact Ordering.noConfusion h1
  | lt =>
    cases hyz : cmpBytes y.atype z.atype with
    | gt => rw [hyz] at h2; exact Ordering.noConfusion h2
    | lt => rw [cmpBytes_lt_trans _ _ _ hxy hyz]
    | eq =>
      rw [(cmpBytes_eq_iff _ _).mp hyz] at hxy
      rw [hxy]
  | eq =>
    rw [hxy] at h1
    cases hyz : cmpBytes y.atype z.atype with
    | gt => rw [hyz] at h2; exact Ordering.noConfusion h2
    | lt =>
      rw [← (cmpBytes_eq_iff _ _).mp hxy] at hyz
      rw [hyz]
    | eq =>
      rw [hyz] at h2
      rw [(cmpBytes_eq_iff _ _).mp hxy, hyz]
      exact cmpOptBytes_lt_trans _ _ _ h1 h2

theorem attrLE_iff (x y : Attribute) :
    attrLE x y ↔ x.cmp y = Ordering.lt ∨ x = y := by
  unfold attrLE
  cases hc : x.cmp y with
  | lt => simp
  | gt =>
    simp only [ne_eq, not_true_eq_false, false_iff]
    rintro (h | h)
    · exact Ordering.noConfusion h
    · rw [← Attribute.cmp_eq_iff x y, hc] at h
      exact Ordering.noConfusion h
  | eq =>
    simp only [ne_eq, reduceCtorEq, not_false_eq_true, true_iff]
    exact Or.inr ((Attribute.cmp_eq_iff x y).mp hc)

instance : IsTotal Attribute attrLE where
  total x y := by
    rw [attrLE_iff, attrLE_iff]
    cases hc : x.cmp y with
    | lt => exact Or.inl (Or.inl rfl)
    | eq => exact Or.inl (Or.inr ((Attribute.cmp_eq_iff x y).mp hc))
    | gt =>
      refine Or.inr (Or.inl ?_)
      rw [← Attribute.cmp_swap, hc]
      rfl

instance : IsTrans Attribute attrLE where
  trans x y z hxy hyz := by
    rw [attrLE_iff] at hxy hyz ⊢
    rcases hxy with h1 | h1
    · rcases hyz with h2 | h2
      · exact Or.inl (Attribute.cmp_lt_trans x y z h1 h2)
      · subst h2; exact Or.inl h1
    · subst h1; exact hyz

instance : IsAntisymm Attribute attrLE where
  antisymm x y hxy hyx := by
    rw [attrLE_iff] at hxy hyx
    rcases hxy with h1 | h1
    · rcases hyx with h2 | h2
      · have := Attribute.cmp_lt_trans x y x h1 h2
        rw [(Attribute.cmp_eq_iff x x).mpr rfl] at this
        exact Ordering.noConfusion this
      · exact h2.symm
    · exact h1

/-- Modelled from the spec: SHA3-512 of the external `tiny_keccak` crate,
as a deterministic 64-byte digest of the absorbed bytes. -/
def sha3_512 (data : List Nat) : List Nat := prfBytes (mixList 29 data) 64

/-- Modelled from the spec: the trailing `<CGWKV as IBKEM>::Id::derive`
step of `Policy::derive::<CGWKV>` (the external `ibe` crate), a further
hash of the 64-byte digest onto the IBE identity. -/
def ibeId (digest : List Nat) : List Nat := prfBytes (mixList 31 digest) 32

/-- Modelled from the spec: `ibs::gg::Identity::derive`, the IBS
counterpart of `ibeId`. -/
def ibsId (digest : List Nat) : List Nat := prfBytes (mixList 37 digest) 32

/-- The `irmaseal_core::Error` variant relevant to `Policy::derive`. -/
inductive CoreError where
  | ConstraintViolation : CoreError
deriving DecidableEq

/-- Hash `f_i = H(2i + 1 || a.typ.len() || a.typ)` of `Policy::derive`. -/
def attrHashA (i : Nat) (ar : Attribute) : List Nat :=
  sha3_512 (beBytes 8 (2 * i + 1) ++ beBytes 8 ar.atype.length ++ ar.atype)

/-- Hash `f_i' = H(2i + 2 || a.val.len() || a.val)` of `Policy::derive`
(absorbing `IDENTITY_UNSET` for an absent value). -/
def attrHashV (i : Nat) (ar : Attribute) : List Nat :=
  sha3_512 (beBytes 8 (2 * i + 2) ++
    (match ar.value with
     | none => beBytes 8 IDENTITY_UNSET
     | some val => beBytes 8 val.length ++ val))

/-- Mirrors `Policy::derive::<K>`: reject an oversized conjunction, sort a
copy of the conjunction, absorb the domain-separation byte `0x00`, the
per-attribute hashes and the timestamp, and feed the digest to the
identity derivation of `K` (passed as `idDerive`; `ibeId` for CGWKV and
`ibsId` for the GG identity-based signatures). -/
def Policy.derive (idDerive : List Nat → List Nat) (p : Policy) :
    Except CoreError (List Nat) :=
  if p.con.length > MAX_CON then Except.error CoreError.ConstraintViolation
  else
    let copy := List.insertionSort attrLE p.con
    let preH := copy.enum.foldl
      (fun acc iar => acc ++ attrHashA iar.1 iar.2 ++ attrHashV iar.1 iar.2) [0]
    Except.ok (idDerive (sha3_512 (preH ++ beBytes 8 p.timestamp)))

/-- Mirrors `Policy::derive::<CGWKV>` as used through `derive_ibe`. -/
def Policy.derive_ibe (p : Policy) : Except CoreError (List Nat) := p.derive ibeId

/-- Mirrors `Policy::derive_ibs`. -/
def Policy.derive_ibs (p : Policy) : Except CoreError (List Nat) := p.derive ibsId

/-- C2: two policies with equal timestamps whose conjunctions are
permutations of one another derive the same identity, for `Policy::derive`
under every identity derivation, and in particular for `derive_ibe` and
`derive_ibs`. -/
theorem derive_order_invariant (p p2 : Policy)
    (hperm : p.con.Perm p2.con) (hts : p.timestamp = p2.timestamp) :
    (∀ idDerive : List Nat → List Nat, p.derive idDerive = p2.derive idDerive) ∧
    p.derive_ibe = p2.derive_ibe ∧ p.derive_ibs = p2.derive_ibs := by
  have hsort : List.insertionSort attrLE p.con = List.insertionSort attrLE p2.con :=
    List.eq_of_perm_of_sorted
      ((List.perm_insertionSort attrLE p.con).trans
        (hperm.trans (List.perm_insertionSort attrLE p2.con).symm))
      (List.sorted_insertionSort attrLE p.con)
      (List.sorted_insertionSort attrLE p2.con)
  have hlen : p.con.length = p2.con.length := hperm.length_eq
  have hd : ∀ idDerive : List Nat → List Nat, p.derive idDerive = p2.derive idDerive := by
    intro idDerive
    unfold Policy.derive
    rw [hlen, hsort, hts]
  exact ⟨hd, hd ibeId, hd ibsId⟩

theorem derive_order_invariant_witness :
    (Policy.mk 5 [Attribute.mk (ascii "b") none,
        Attribute.mk (ascii "a") (some (ascii "x"))]).con.Perm
      (Policy.mk 5 [Attribute.mk (ascii "a") (some (ascii "x")),
        Attribute.mk (ascii "b") none]).con ∧
    (Policy.mk 5 [Attribute.mk (ascii "b") none,
        Attribute.mk (ascii "a") (some (ascii "x"))]).derive_ibe =
      (Policy.mk 5 [Attribute.mk (ascii "a") (some (ascii "x")),
        Attribute.mk (ascii "b") none]).derive_ibe :=
  ⟨by decide,
    (derive_order_invariant
      (Policy.mk 5 [Attribute.mk (ascii "b") none,
        Attribute.mk (ascii "a") (some (ascii "x"))])
      (Policy.mk 5 [Attribute.mk (ascii "a") (some (ascii "x")),
        Attribute.mk (ascii "b") none])
      (by decide) rfl).2.1⟩

/-- C3 counterexample: the claim places the failure bound at
`(2^63 - 2) / 2 = 2^62 - 1` attributes, but a policy with `2^62`
attributes (beyond that claimed bound) still derives successfully, because
the bound in the source is `MAX_CON = (2^64 - 2) / 2 = 2^63 - 1`. -/
theorem derive_bound_counterexample :
    (Policy.mk 0 (List.replicate (2 ^ 62) (Attribute.mk [] none))).con.length >
      (2 ^ 63 - 2) / 2 ∧
    ((Policy.mk 0 (List.replicate (2 ^ 62) (Attribute.mk [] none))).derive_ibe).isOk =
      true := by
  constructor
  · rw [show (Policy.mk 0 (List.replicate (2 ^ 62) (Attribute.mk [] none))).con =
      List.replicate (2 ^ 62) (Attribute.mk [] none) from rfl, List.length_replicate]
    norm_num
  · unfold Policy.derive_ibe Policy.derive
    rw [if_neg (by
      rw [show (Policy.mk 0 (List.replicate (2 ^ 62) (Attribute.mk [] none))).con =
        List.replicate (2 ^ 62) (Attribute.mk [] none) from rfl, List.length_replicate]
      unfold MAX_CON IDENTITY_UNSET
      norm_num)]
    rfl

/-- C3 amended: `Policy::derive` (and hence `derive_ibe` and `derive_ibs`)
returns `Err(ConstraintViolation)` exactly when the conjunction holds more
than `MAX_CON = (2^64 - 2) / 2 = 2^63 - 1` attributes, and succeeds for
every policy within that bound. -/
theorem derive_bound_amended :
    MAX_CON = 2 ^ 63 - 1 ∧
    ∀ (p : Policy) (idDerive : List Nat → List Nat),
      (p.derive idDerive = Except.error CoreError.ConstraintViolation ↔
        p.con.length > 2 ^ 63 - 1) ∧
      (p.con.length ≤ 2 ^ 63 - 1 → (p.derive idDerive).isOk = true) := by
  have hmax : MAX_CON = 2 ^ 63 - 1 := by
    unfold MAX_CON IDENTITY_UNSET
    norm_num
  refine ⟨hmax, fun p idDerive => ⟨?_, ?_⟩⟩
  · unfold Policy.derive
    rw [hmax]
    by_cases hc : p.con.length > 2 ^ 63 - 1
    · rw [if_pos hc]
      simp only [true_iff, hc]
    · rw [if_neg hc]
      simp only [reduceCtorEq, false_iff]
      exact hc
  · intro hle
    unfold Policy.derive
    rw [hmax, if_neg (by omega)]
    rfl

theorem derive_bound_amended_witness :
    ((Policy.mk 0 []).con.length ≤ 2 ^ 63 - 1) ∧
    (MAX_CON = 2 ^ 63 - 1 ∧
      ((Policy.mk 0 []).derive ibeId = Except.error CoreError.ConstraintViolation ↔
        (Policy.mk 0 []).con.length > 2 ^ 63 - 1) ∧
      ((Policy.mk 0 []).con.length ≤ 2 ^ 63 - 1 →
        ((Policy.mk 0 []).derive ibeId).isOk = true)) :=
  ⟨by norm_num,
    ⟨derive_bound_amended.1,
      (derive_bound_amended.2 (Policy.mk 0 []) ibeId).1,
      (derive_bound_amended.2 (Policy.mk 0 []) ibeId).2⟩⟩

/-- UTF-8 bytes of `item as char` for a byte `item`: bytes below 128 pass
through, bytes of 128 and above become the two-byte encoding of the code
point U+0080..U+00FF, exactly as the `format!` call in `hintify_value`
re-encodes them. -/
def charUtf8 (item : Nat) : List Nat :=
  if item < 128 then [item] else [192 + item / 64, 128 + item % 64]

/-- Wrapping 64-bit subtraction: release-profile Rust `usize` subtraction
on a 64-bit target (meaningful for `b ≤ 2^64`). -/
def wrapSub64 (a b : Nat) : Nat := (a + 2 ^ 64 - b) % 2 ^ 64

/-- Mirrors `Attribute::hintify_value`.  `none` models the `unwrap` panic
on an absent value.  The `usize` subtraction
`value.len() - AMOUNT_CHARS_TO_HIDE` overflows for values shorter than 4
bytes; it is modelled with the release-profile wrap-around semantics
(under the debug profile the same subtraction panics instead — either
way no byte is replaced by a star). -/
def Attribute.hintify_value (a : Attribute) : Option (List Nat) :=
  a.value.map fun value =>
    value.enum.foldl
      (fun hintString ib =>
        if ib.1 + 1 > wrapSub64 value.length AMOUNT_CHARS_TO_HIDE
        then hintString ++ [42]
        else hintString ++ charUtf8 ib.2)
      []

/-- A hidden attribute, from src/irmaseal-core/src/identity.rs. -/
structure HiddenAttribute where
  atype : List Nat
  hidden_value : Option (List Nat)
deriving DecidableEq

/-- A hidden policy. -/
structure HiddenPolicy where
  timestamp : Nat
  con : List HiddenAttribute
deriving DecidableEq

/-- Mirrors `Policy::to_hidden`: hint the three whitelisted attribute
types, hide every other value completely.  `none` models the panic that
`hintify_value` raises when a whitelisted attribute carries no value. -/
def Policy.to_hidden (p : Policy) : Option HiddenPolicy := do
  let con ← p.con.mapM fun a => do
    let hv ←
      if a.atype = ascii "pbdf.sidn-pbdf.mobilenumber.mobilenumber" then a.hintify_value
      else if a.atype = ascii "pbdf.pbdf.surfnet-2.id" then a.hintify_value
      else if a.atype = ascii "pbdf.nuts.agb.agbcode" then a.hintify_value
      else some []
    pure (HiddenAttribute.mk a.atype (some hv))
  pure (HiddenPolicy.mk p.timestamp con)

/-- C4 evidence: on the spec KAT, `hintify_value` hides the last four
bytes of `"123456789"` as claimed; but on the three-byte value `"123"` of
a whitelisted attribute type, the `usize` subtraction underflows and every
byte is preserved verbatim (release profile; the debug profile panics), so
the value is not turned into `"***"` — `to_hidden` then publishes the
value unredacted. -/
theorem hintify_short_value_leaks :
    (Attribute.mk (ascii "pbdf.sidn-pbdf.mobilenumber.mobilenumber")
        (some (ascii "123456789"))).hintify_value = some (ascii "12345****") ∧
    (Attribute.mk (ascii "pbdf.nuts.agb.agbcode") (some (ascii "123"))).hintify_value =
      some (ascii "123") ∧
    ascii "123" ≠ [42, 42, 42] ∧
    (Policy.mk 0 [Attribute.mk (ascii "pbdf.nuts.agb.agbcode")
        (some (ascii "123"))]).to_hidden =
      some (HiddenPolicy.mk 0 [HiddenAttribute.mk (ascii "pbdf.nuts.agb.agbcode")
        (some (ascii "123"))]) :=
  ⟨by decide, by decide, by decide, by decide⟩

/-!
The pg-core streaming client.  The state machines of
src/pg-core/src/client/rust/stream.rs are translated faithfully; the
crate-level constants, the `Header` and artifact types, the bincode
serialization, and the external `ibe` KEM and `ibs` signature crates are
not under src/ and are modelled from the spec (sections 3, 4.3, 4.6, 6.2),
as marked below.  Readers and writers are byte lists: a read returns as
many bytes as the requested slice allows (cursor semantics), a write
appends.
-/

/-- Modelled from the spec: `KEY_SIZE` (section 4.3). -/
def KEY_SIZE : Nat := 16

/-- Modelled from the spec: `STREAM_NONCE_SIZE` (section 4.3). -/
def STREAM_NONCE_SIZE : Nat := 12

/-- Modelled from the spec: `POL_SIZE_SIZE` (section 4.3). -/
def POL_SIZE_SIZE : Nat := 4

/-- Modelled from the spec: `SIG_SIZE_SIZE` (section 4.3). -/
def SIG_SIZE_SIZE : Nat := 4

/-- Modelled from the spec: `PREAMBLE_SIZE = 6 + 4` (section 4.3). -/
def PREAMBLE_SIZE : Nat := 10

/-- Modelled from the spec: the 4-byte magic `PRELUDE` (its concrete value
is opaque to the spec; the model fixes one). -/
def PRELUDE : List Nat := [20, 138, 142, 167]

/-- Modelled from the spec: the `u16` version tag `VERSION_V3`. -/
def VERSION_V3 : Nat := 3

/-- Modelled from the spec: the default streaming segment size (65536,
section 4.4). -/
def SYMMETRIC_CRYPTO_DEFAULT_CHUNK : Nat := 65536

/-- Modelled from the spec: `ibs::gg::SIG_BYTES`, the fixed byte length of
a serialized GG signature.  The concrete value is opaque to the spec; the
model fixes 8. -/
def SIG_BYTES : Nat := 8

/-- Modelled from the spec: pg-core `TAG_SIZE`.  Section 4.3 lists
`TAG_SIZE = 32` and `COUNTER_LEN = 4` separately, but the unsealer buffer
arithmetic (`segment_size + SIG_BYTES + TAG_SIZE` must cover a full wire
segment, whose Deck trailer is 36 bytes) forces the fork to carry the full
36-byte trailer in this constant. -/
def TAG_SIZE : Nat := 36

/-- The `pg_core::error::Error` kinds the embedded client can surface
(section 7 of the spec). -/
inductive PgError where
  | NotPostGuard : PgError
  | UnknownVersion : PgError
  | FormatViolation : PgError
  | ConstraintViolation : PgError
  | IncorrectSignature : PgError
  | UnknownIdentifier : List Nat → PgError
  | Unexpected : PgError
deriving DecidableEq

/-- Outcome of an embedded fallible Rust computation: a panic, an `Err`
return, or a normal return. -/
inductive Outcome (α : Type) where
  | panicked : Outcome α
  | err : PgError → Outcome α
  | ok : α → Outcome α
deriving DecidableEq

/-- Sequencing of outcomes (panics and errors propagate). -/
def Outcome.bind {α β : Type} : Outcome α → (α → Outcome β) → Outcome β
  | Outcome.panicked, _ => Outcome.panicked
  | Outcome.err e, _ => Outcome.err e
  | Outcome.ok a, f => f a

/-- Mapping over an outcome. -/
def Outcome.map {α β : Type} (f : α → β) : Outcome α → Outcome β
  | Outcome.panicked => Outcome.panicked
  | Outcome.err e => Outcome.err e
  | Outcome.ok a => Outcome.ok (f a)

/-- Modelled from the spec (section 4.6): a user signing key of the
`ibs::gg` scheme for an identity, issued under the master verifying key. -/
def ibsUsk (vk id : List Nat) : List Nat :=
  prfBytes (mixStep (mixList 41 vk) (mixList 43 id)) 32

/-- Modelled from the spec (section 4.6): a GG signature over a transcript
under a user signing key, as a fixed-length (`SIG_BYTES`) digest.  The
source scheme is randomized; only determinism of verification matters
here, so the model signs deterministically and drops the RNG argument. -/
def ibsSign (key transcript : List Nat) : List Nat :=
  prfBytes (mixStep (mixList 47 key) (mixList 53 transcript)) SIG_BYTES

/-- Modelled from the spec (section 4.6): GG verification accepts exactly
the signatures produced under the user signing key of the stated
identity. -/
def ibsVerify (vk transcript sig id : List Nat) : Bool :=
  sig == ibsSign (ibsUsk vk id) transcript

/-- Modelled from the spec (section 4.6): a CGWKV KEM ciphertext binds the
recipient identity and the encapsulated shared secret. -/
structure KemCt where
  id : List Nat
  ss : List Nat
deriving DecidableEq

/-- Modelled from the spec: a CGWKV user secret key for an IBE identity. -/
structure UserSecretKey where
  id : List Nat
deriving DecidableEq

/-- Modelled from the spec (section 4.6): encapsulation of the shared
secret `ss` to the identity `id` (the IBE public key and RNG shape the
real ciphertext; the model keeps the binding). -/
def kemEncaps (_pk id ss : List Nat) : KemCt := KemCt.mk id ss

/-- Modelled from the spec (section 4.6): decapsulation returns the
encapsulated secret for the matching user secret key and an unrelated
pseudorandom secret otherwise. -/
def kemDecaps (usk : UserSecretKey) (ct : KemCt) : List Nat :=
  if usk.id = ct.id then ct.ss
  else prfBytes (mixStep (mixList 59 usk.id) (mixList 61 ct.ss)) 32

/-- Modelled from the spec: `SigningKeyExt`, a user signing key extended
with the policy it was issued for. -/
structure SigningKeyExt where
  key : List Nat
  policy : Policy
deriving DecidableEq

/-- Modelled from the spec (section 3): `RecipientInfo`. -/
structure RecipientInfo where
  hidden_policy : HiddenPolicy
  kem_ct : KemCt
deriving DecidableEq

/-- Modelled from the spec (section 3): the streaming `Mode` payload. -/
structure Mode where
  segment_size : Nat
  size_hint : Nat × Option Nat
deriving DecidableEq

/-- Modelled from the spec (section 3): the `Header`; `algo` carries the
16 `Aes128Gcm` iv bytes, `recipients` maps identifiers to recipient
information with deterministic iteration order. -/
structure Header where
  recipients : List (List Nat × RecipientInfo)
  algo : List Nat
  mode : Mode
deriving DecidableEq

/-- The `VerificationResult` (section 3); the second field is named
`private` in the source, a reserved word here. -/
structure VerificationResult where
  public : Policy
  priv : Option Policy
deriving DecidableEq

/-!
Bincode serialization, modelled from the spec (section 6.2): a fixed,
length-prefixed, field-order-stable binary encoding.  Lengths and `u64`
fields are 8 little-endian bytes, `u32` fields 4 little-endian bytes,
`Option` a one-byte tag, enum variants a 4-byte variant index, fixed-size
byte arrays their raw bytes.
-/

/-- Byte string: length prefix then bytes. -/
def encBytes (s : List Nat) : List Nat := leBytes 8 s.length ++ s

/-- Optional byte string. -/
def encOptBytes : Option (List Nat) → List Nat
  | none => [0]
  | some s => 1 :: encBytes s

/-- Serialized `Attribute`. -/
def encAttribute (a : Attribute) : List Nat := encBytes a.atype ++ encOptBytes a.value

/-- Serialized `Policy`. -/
def encPolicy (p : Policy) : List Nat :=
  leBytes 8 p.timestamp ++ leBytes 8 p.con.length ++ (p.con.map encAttribute).flatten

/-- Serialized `HiddenAttribute`. -/
def encHiddenAttribute (a : HiddenAttribute) : List Nat :=
  encBytes a.atype ++ encOptBytes a.hidden_value

/-- Serialized `HiddenPolicy`. -/
def encHiddenPolicy (p : HiddenPolicy) : List Nat :=
  leBytes 8 p.timestamp ++ leBytes 8 p.con.length ++ (p.con.map encHiddenAttribute).flatten

/-- Serialized KEM ciphertext. -/
def encKemCt (c : KemCt) : List Nat := encBytes c.id ++ encBytes c.ss

/-- Serialized `RecipientInfo`. -/
def encRecipientInfo (r : RecipientInfo) : List Nat :=
  encHiddenPolicy r.hidden_policy ++ encKemCt r.kem_ct

/-- Serialized optional `u64`. -/
def encOptU64 : Option Nat → List Nat
  | none => [0]
  | some n => 1 :: leBytes 8 n

/-- Serialized `Mode` (variant index, then `segment_size : u32` and the
size hint). -/
def encMode (m : Mode) : List Nat :=
  leBytes 4 0 ++ leBytes 4 m.segment_size ++ leBytes 8 m.size_hint.1 ++
    encOptU64 m.size_hint.2

/-- Serialized `Algorithm::Aes128Gcm(iv)` (variant index then the 16 raw
iv bytes). -/
def encAlgo (iv : List Nat) : List Nat := leBytes 4 0 ++ iv

/-- Serialized `Header`. -/
def encHeader (h : Header) : List Nat :=
  leBytes 8 h.recipients.length ++
    (h.recipients.map fun r => encBytes r.1 ++ encRecipientInfo r.2).flatten ++
    encAlgo h.algo ++ encMode h.mode

/-- Serialized `SignatureExt` (the fixed-size signature bytes then the
signer policy). -/
def encSigExt (sig : List Nat) (pol : Policy) : List Nat := sig ++ encPolicy pol

/-- Decode a length-prefixed byte string. -/
def decBytes (l : List Nat) : Option (List Nat × List Nat) := do
  let (n, r) ← decLe 8 l
  if n ≤ r.length then some (r.take n, r.drop n) else none

/-- Decode an optional byte string. -/
def decOptBytes : List Nat → Option (Option (List Nat) × List Nat)
  | 0 :: r => some (none, r)
  | 1 :: r => (decBytes r).map fun p => (some p.1, p.2)
  | _ => none

/-- Decode an `Attribute`. -/
def decAttribute (l : List Nat) : Option (Attribute × List Nat) := do
  let (t, r) ← decBytes l
  let (v, r2) ← decOptBytes r
  some (Attribute.mk t v, r2)

/-- Decode `k` consecutive values. -/
def decListN {α : Type} (dec : List Nat → Option (α × List Nat)) :
    Nat → List Nat → Option (List α × List Nat)
  | 0, l => some ([], l)
  | k + 1, l => do
    let (a, r) ← dec l
    let (rest, r2) ← decListN dec k r
    some (a :: rest, r2)

/-- Decode a `Policy`. -/
def decPolicy (l : List Nat) : Option (Policy × List Nat) := do
  let (ts, r) ← decLe 8 l
  let (n, r2) ← decLe 8 r
  let (con, r3) ← decListN decAttribute n r2
  some (Policy.mk ts con, r3)

/-- Decode a `HiddenAttribute`. -/
def decHiddenAttribute (l : List Nat) : Option (HiddenAttribute × List Nat) := do
  let (t, r) ← decBytes l
  let (v, r2) ← decOptBytes r
  some (HiddenAttribute.mk t v, r2)

/-- Decode a `HiddenPolicy`. -/
def decHiddenPolicy (l : List Nat) : Option (HiddenPolicy × List Nat) := do
  let (ts, r) ← decLe 8 l
  let (n, r2) ← decLe 8 r
  let (con, r3) ← decListN decHiddenAttribute n r2
  some (HiddenPolicy.mk ts con, r3)

/-- Decode a KEM ciphertext. -/
def decKemCt (l : List Nat) : Option (KemCt × List Nat) := do
  let (i, r) ← decBytes l
  let (s, r2) ← decBytes r
  some (KemCt.mk i s, r2)

/-- Decode a `RecipientInfo`. -/
def decRecipientInfo (l : List Nat) : Option (RecipientInfo × List Nat) := do
  let (hp, r) ← decHiddenPolicy l
  let (ct, r2) ← decKemCt r
  some (RecipientInfo.mk hp ct, r2)

/-- Decode a recipients entry. -/
def decRecipient (l : List Nat) : Option ((List Nat × RecipientInfo) × List Nat) := do
  let (ident, r) ← decBytes l
  let (ri, r2) ← decRecipientInfo r
  some ((ident, ri), r2)

/-- Decode an optional `u64`. -/
def decOptU64 : List Nat → Option (Option Nat × List Nat)
  | 0 :: r => some (none, r)
  | 1 :: r => (decLe 8 r).map fun p => (some p.1, p.2)
  | _ => none

/-- Decode a `Mode`. -/
def decMode (l : List Nat) : Option (Mode × List Nat) := do
  let (tag, r) ← decLe 4 l
  if tag = 0 then do
    let (seg, r2) ← decLe 4 r
    let (hint1, r3) ← decLe 8 r2
    let (hint2, r4) ← decOptU64 r3
    some (Mode.mk seg (hint1, hint2), r4)
  else none

/-- Decode an `Algorithm::Aes128Gcm` iv. -/
def decAlgo (l : List Nat) : Option (List Nat × List Nat) := do
  let (tag, r) ← decLe 4 l
  if tag = 0 then
    if 16 ≤ r.length then some (r.take 16, r.drop 16) else none
  else none

/-- Decode a `Header`. -/
def decHeader (l : List Nat) : Option (Header × List Nat) := do
  let (n, r) ← decLe 8 l
  let (recips, r2) ← decListN decRecipient n r
  let (iv, r3) ← decAlgo r2
  let (m, r4) ← decMode r3
  some (Header.mk recips iv m, r4)

/-- Decode a `SignatureExt`. -/
def decSigExt (l : List Nat) : Option (List Nat × Policy) :=
  if l.length < SIG_BYTES then none
  else (decPolicy (l.drop SIG_BYTES)).map fun p => (l.take SIG_BYTES, p.1)

/-!
Bincode round trips on well-formed values (lengths and integers fit the
fixed-width wire fields).
-/

/-- Length fits the `u64` wire field of an optional byte string. -/
def optLenWf : Option (List Nat) → Prop
  | none => True
  | some s => s.length < 2 ^ 64

instance (v : Option (List Nat)) : Decidable (optLenWf v) := by
  unfold optLenWf
  cases v <;> infer_instance

/-- Wire well-formedness of an `Attribute`. -/
def Attribute.bwf (a : Attribute) : Prop :=
  a.atype.length < 2 ^ 64 ∧ optLenWf a.value

instance (a : Attribute) : Decidable a.bwf := by
  unfold Attribute.bwf
  infer_instance

/-- Wire well-formedness of a `Policy`. -/
def Policy.bwf (p : Policy) : Prop :=
  p.timestamp < 2 ^ 64 ∧ p.con.length < 2 ^ 64 ∧ ∀ a ∈ p.con, a.bwf

instance (p : Policy) : Decidable p.bwf := by
  unfold Policy.bwf
  infer_instance

/-- Wire well-formedness of a `HiddenAttribute`. -/
def HiddenAttribute.bwf (a : HiddenAttribute) : Prop :=
  a.atype.length < 2 ^ 64 ∧ optLenWf a.hidden_value

instance (a : HiddenAttribute) : Decidable a.bwf := by
  unfold HiddenAttribute.bwf
  infer_instance

/-- Wire well-formedness of a `HiddenPolicy`. -/
def HiddenPolicy.bwf (p : HiddenPolicy) : Prop :=
  p.timestamp < 2 ^ 64 ∧ p.con.length < 2 ^ 64 ∧ ∀ a ∈ p.con, a.bwf

instance (p : HiddenPolicy) : Decidable p.bwf := by
  unfold HiddenPolicy.bwf
  infer_instance

/-- Wire well-formedness of a KEM ciphertext. -/
def KemCt.bwf (c : KemCt) : Prop := c.id.length < 2 ^ 64 ∧ c.ss.length < 2 ^ 64

instance (c : KemCt) : Decidable c.bwf := by
  unfold KemCt.bwf
  infer_instance

/-- Wire well-formedness of a `RecipientInfo`. -/
def RecipientInfo.bwf (r : RecipientInfo) : Prop := r.hidden_policy.bwf ∧ r.kem_ct.bwf

instance (r : RecipientInfo) : Decidable r.bwf := by
  unfold RecipientInfo.bwf
  infer_instance

/-- Wire well-formedness of an optional `u64`. -/
def optU64Wf : Option Nat → Prop
  | none => True
  | some n => n < 2 ^ 64

instance (v : Option Nat) : Decidable (optU64Wf v) := by
  unfold optU64Wf
  cases v <;> infer_instance

/-- Wire well-formedness of a `Mode`. -/
def Mode.bwf (m : Mode) : Prop :=
  m.segment_size < 2 ^ 32 ∧ m.size_hint.1 < 2 ^ 64 ∧ optU64Wf m.size_hint.2

instance (m : Mode) : Decidable m.bwf := by
  unfold Mode.bwf
  infer_instance

/-- Wire well-formedness of a `Header`. -/
def Header.bwf (h : Header) : Prop :=
  h.recipients.length < 2 ^ 64 ∧
    (∀ r ∈ h.recipients, r.1.length < 2 ^ 64 ∧ r.2.bwf) ∧
    h.algo.length = 16 ∧ h.mode.bwf

instance (h : Header) : Decidable h.bwf := by
  unfold Header.bwf
  infer_instance

theorem decLe8_enc (n : Nat) (r : List Nat) (h : n < 2 ^ 64) :
    decLe 8 (leBytes 8 n ++ r) = some (n, r) :=
  decLe_leBytes 8 n r (by norm_num at h ⊢; omega)

theorem decLe4_enc (n : Nat) (r : List Nat) (h : n < 2 ^ 32) :
    decLe 4 (leBytes 4 n ++ r) = some (n, r) :=
  decLe_leBytes 4 n r (by norm_num at h ⊢; omega)

theorem decBytes_enc (s r : List Nat) (h : s.length < 2 ^ 64) :
    decBytes (encBytes s ++ r) = some (s, r) := by
  unfold decBytes encBytes
  rw [List.append_assoc, decLe8_enc _ _ h]
  simp only [Option.bind_eq_bind, Option.some_bind]
  rw [if_pos (by simp)]
  rw [take_len_left, drop_len_left]

theorem decOptBytes_enc (v : Option (List Nat)) (r : List Nat) (h : optLenWf v) :
    decOptBytes (encOptBytes v ++ r) = some (v, r) := by
  cases v with
  | none => rfl
  | some s =>
    show (decBytes (encBytes s ++ r)).map (fun p => (some p.1, p.2)) = some (some s, r)
    rw [decBytes_enc s r h]
    rfl

theorem decAttribute_enc (a : Attribute) (r : List Nat) (h : a.bwf) :
    decAttribute (encAttribute a ++ r) = some (a, r) := by
  unfold decAttribute encAttribute
  rw [List.append_assoc, decBytes_enc _ _ h.1]
  simp only [Option.bind_eq_bind, Option.some_bind]
  rw [decOptBytes_enc a.value r h.2]
  rfl

theorem decListN_enc {α : Type} (dec : List Nat → Option (α × List Nat)) (enc : α → List Nat) :
    ∀ (l : List α) (r : List Nat),
      (∀ a ∈ l, ∀ r2 : List Nat, dec (enc a ++ r2) = some (a, r2)) →
      decListN dec l.length ((l.map enc).flatten ++ r) = some (l, r)
  | [], r, _ => by simp [decListN]
  | a :: rest, r, hdec => by
    have hstep := hdec a (by simp) (((rest.map enc).flatten) ++ r)
    have hih := decListN_enc dec enc rest r fun x hx r2 => hdec x (by simp [hx]) r2
    show decListN dec (rest.length + 1) ((enc a ++ (rest.map enc).flatten) ++ r) = _
    unfold decListN
    rw [List.append_assoc, hstep]
    simp only [Option.bind_eq_bind, Option.some_bind]
    rw [hih]
    rfl

theorem decPolicy_enc (p : Policy) (r : List Nat) (h : p.bwf) :
    decPolicy (encPolicy p ++ r) = some (p, r) := by
  obtain ⟨h1, h2, h3⟩ := h
  unfold decPolicy encPolicy
  rw [List.append_assoc, List.append_assoc, decLe8_enc _ _ h1]
  simp only [Option.bind_eq_bind, Option.some_bind]
  rw [decLe8_enc _ _ h2]
  simp only [Option.bind_eq_bind, Option.some_bind]
  rw [decListN_enc decAttribute encAttribute p.con r
    fun a ha r2 => decAttribute_enc a r2 (h3 a ha)]
  rfl

theorem decHiddenAttribute_enc (a : HiddenAttribute) (r : List Nat) (h : a.bwf) :
    decHiddenAttribute (encHiddenAttribute a ++ r) = some (a, r) := by
  unfold decHiddenAttribute encHiddenAttribute
  rw [List.append_assoc, decBytes_enc _ _ h.1]
  simp only [Option.bind_eq_bind, Option.some_bind]
  rw [decOptBytes_enc a.hidden_value r h.2]
  rfl

theorem decHiddenPolicy_enc (p : HiddenPolicy) (r : List Nat) (h : p.bwf) :
    decHiddenPolicy (encHiddenPolicy p ++ r) = some (p, r) := by
  obtain ⟨h1, h2, h3⟩ := h
  unfold decHiddenPolicy encHiddenPolicy
  rw [List.append_assoc, List.append_assoc, decLe8_enc _ _ h1]
  simp only [Option.bind_eq_bind, Option.some_bind]
  rw [decLe8_enc _ _ h2]
  simp only [Option.bind_eq_bind, Option.some_bind]
  rw [decListN_enc decHiddenAttribute encHiddenAttribute p.con r
    fun a ha r2 => decHiddenAttribute_enc a r2 (h3 a ha)]
  rfl

theorem decKemCt_enc (c : KemCt) (r : List Nat) (h : c.bwf) :
    decKemCt (encKemCt c ++ r) = some (c, r) := by
  unfold decKemCt encKemCt
  rw [List.append_assoc, decBytes_enc _ _ h.1]
  simp only [Option.bind_eq_bind, Option.some_bind]
  rw [decBytes_enc _ _ h.2]
  rfl

theorem decRecipientInfo_enc (ri : RecipientInfo) (r : List Nat) (h : ri.bwf) :
    decRecipientInfo (encRecipientInfo ri ++ r) = some (ri, r) := by
  unfold decRecipientInfo encRecipientInfo
  rw [List.append_assoc, decHiddenPolicy_enc _ _ h.1]
  simp only [Option.bind_eq_bind, Option.some_bind]
  rw [decKemCt_enc _ _ h.2]
  rfl

theorem decRecipient_enc (ident : List Nat) (ri : RecipientInfo) (r : List Nat)
    (h1 : ident.length < 2 ^ 64) (h2 : ri.bwf) :
    decRecipient ((encBytes ident ++ encRecipientInfo ri) ++ r) = some ((ident, ri), r) := by
  unfold decRecipient
  rw [List.append_assoc, decBytes_enc _ _ h1]
  simp only [Option.bind_eq_bind, Option.some_bind]
  rw [decRecipientInfo_enc _ _ h2]
  rfl

theorem decOptU64_enc (v : Option Nat) (r : List Nat) (h : optU64Wf v) :
    decOptU64 (encOptU64 v ++ r) = some (v, r) := by
  cases v with
  | none => rfl
  | some n =>
    show (decLe 8 (leBytes 8 n ++ r)).map (fun p => (some p.1, p.2)) = some (some n, r)
    rw [decLe8_enc n r h]
    rfl

theorem decMode_enc (m : Mode) (r : List Nat) (h : m.bwf) :
    decMode (encMode m ++ r) = some (m, r) := by
  obtain ⟨h1, h2, h3⟩ := h
  unfold decMode encMode
  rw [List.append_assoc, List.append_assoc, List.append_assoc,
    decLe4_enc 0 _ (by norm_num)]
  simp only [Option.bind_eq_bind, Option.some_bind]
  rw [decLe4_enc _ _ h1]
  simp only [Option.bind_eq_bind, Option.some_bind]
  rw [decLe8_enc _ _ h2]
  simp only [Option.bind_eq_bind, Option.some_bind]
  rw [decOptU64_enc _ _ h3]
  rfl

theorem decAlgo_enc (iv : List Nat) (r : List Nat) (h : iv.length = 16) :
    decAlgo (encAlgo iv ++ r) = some (iv, r) := by
  unfold decAlgo encAlgo
  rw [List.append_assoc, decLe4_enc 0 _ (by norm_num)]
  simp only [Option.bind_eq_bind, Option.some_bind]
  rw [if_pos (by simp [h]), show (16 : Nat) = iv.length from h.symm,
    take_len_left, drop_len_left, if_pos (by simp)]

theorem decHeader_enc (h : Header) (r : List Nat) (hwf : h.bwf) :
    decHeader (encHeader h ++ r) = some (h, r) := by
  obtain ⟨h1, h2, h3, h4⟩ := hwf
  unfold decHeader encHeader
  rw [List.append_assoc, List.append_assoc, List.append_assoc, decLe8_enc _ _ h1]
  simp only [Option.bind_eq_bind, Option.some_bind]
  rw [show (h.recipients.map fun p => encBytes p.1 ++ encRecipientInfo p.2) =
    h.recipients.map (fun p : List Nat × RecipientInfo => encBytes p.1 ++ encRecipientInfo p.2)
    from rfl]
  rw [decListN_enc decRecipient
    (fun p : List Nat × RecipientInfo => encBytes p.1 ++ encRecipientInfo p.2) h.recipients _
    fun a ha r2 => by
      have := h2 a ha
      exact decRecipient_enc a.1 a.2 r2 this.1 this.2]
  simp only [Option.bind_eq_bind, Option.some_bind]
  rw [decAlgo_enc _ _ h3]
  simp only [Option.bind_eq_bind, Option.some_bind]
  rw [decMode_enc _ _ h4]
  rfl

theorem decSigExt_enc (sig : List Nat) (pol : Policy) (hs : sig.length = SIG_BYTES)
    (hp : pol.bwf) :
    decSigExt (encSigExt sig pol) = some (sig, pol) := by
  unfold decSigExt encSigExt
  rw [if_neg (by simp [hs])]
  rw [show SIG_BYTES = sig.length from hs.symm, take_len_left, drop_len_left]
  rw [show encPolicy pol = encPolicy pol ++ ([] : List Nat) by simp, decPolicy_enc pol [] hp]
  rfl

/-!
The Sealer, translated from src/pg-core/src/client/rust/stream.rs
(`Sealer::new`, `Sealer::seal`); `Header::new` and the artifact plumbing
are modelled from the spec as noted.
-/

/-- The streaming `Sealer` state after construction. -/
structure Sealer where
  header : Header
  pub_sign_key : SigningKeyExt
  priv_sign_key : Option SigningKeyExt
  segment_size : Nat
  key : List Nat
  nonce : List Nat
deriving DecidableEq

/-- Modelled from the spec (section 4.4, step 1 of Construction): build
the recipient map of `Header::new` by deriving each recipient policy's IBE
identity, hiding the policy, and encapsulating the one shared secret to
the identity.  A `ConstraintViolation` from `derive` propagates. -/
def mkRecipients (pk ss : List Nat) :
    List (List Nat × Policy) → Outcome (List (List Nat × RecipientInfo))
  | [] => Outcome.ok []
  | (ident, pol) :: rest =>
    match pol.derive_ibe with
    | Except.error _ => Outcome.err PgError.ConstraintViolation
    | Except.ok id =>
      match pol.to_hidden with
      | none => Outcome.panicked
      | some hp =>
        (mkRecipients pk ss rest).map fun rs =>
          (ident, RecipientInfo.mk hp (kemEncaps pk id ss)) :: rs

/-- Mirrors `Sealer::<SealerStreamConfig>::new`.  The RNG outputs of
`Header::new` are the explicit parameters `ss` (shared secret) and `iv`:
the header takes the default streaming mode with segment size
`SYMMETRIC_CRYPTO_DEFAULT_CHUNK`, the AEAD key is `ss[..KEY_SIZE]` and the
nonce `iv[..STREAM_NONCE_SIZE]` (slicing panics when they are shorter). -/
def Sealer.new (pk : List Nat) (policies : List (List Nat × Policy))
    (pub_sign_key : SigningKeyExt) (ss iv : List Nat) : Outcome Sealer :=
  (mkRecipients pk ss policies).bind fun recips =>
    if ss.length < KEY_SIZE ∨ iv.length < STREAM_NONCE_SIZE then Outcome.panicked
    else
      let header := Header.mk recips iv (Mode.mk SYMMETRIC_CRYPTO_DEFAULT_CHUNK (0, none))
      Outcome.ok (Sealer.mk header pub_sign_key none header.mode.segment_size
        (ss.take KEY_SIZE) (iv.take STREAM_NONCE_SIZE))

/-- Modelled from the spec: the builder that installs an optional private
payload-signing key on the sealer. -/
def Sealer.with_priv_signing_key (s : Sealer) (k : SigningKeyExt) : Sealer :=
  { s with priv_sign_key := some k }

/-- The segment loop of `Sealer::seal`, one iteration per recursive call.
Arguments after the fuel: the Deck, the signer transcript, the `u32`
segment counter, the buffer contents (`buf[..buf_tail]`), the start offset
of unsigned data in the buffer, and the remaining input.  Returns the wire
segments in order.  Reads have cursor semantics: a read into
`buf[buf_tail..segment_size]` returns as many bytes as the slice and the
remaining input allow.  The `.unwrap()` on `wrap` and on
`counter.checked_add(1)` make `Overflow` a panic.  The fuel is a loop
measure; callers pass enough that the `Unexpected` branch is dead. -/
def sealLoop (segSize : Nat) (skKey : List Nat) :
    Nat → Deck → List Nat → Nat → List Nat → Nat → List Nat → Outcome (List (List Nat))
  | 0, _, _, _, _, _, _ => Outcome.err PgError.Unexpected
  | fuel + 1, enc, signer, counter, buf, start, input =>
    let r := min (segSize - buf.length) input.length
    let buf2 := buf ++ input.take r
    let input2 := input.drop r
    if buf2.length = segSize then
      let signer2 := signer ++ buf2.drop start
      let sig := ibsSign skKey (signer2 ++ beBytes 4 counter ++ [0])
      let w := enc.wrap (buf2 ++ sig)
      match w.err with
      | some _ => Outcome.panicked
      | none =>
        if counter = 2 ^ 32 - 1 then Outcome.panicked
        else
          (sealLoop segSize skKey fuel w.deck signer2 (counter + 1) [] 0 input2).map
            fun segs => w.buf :: segs
    else if r = 0 then
      let signer2 := signer ++ buf2.drop start
      let sig := ibsSign skKey (signer2 ++ beBytes 4 counter ++ [1])
      let w := enc.wrap_last (buf2 ++ sig)
      match w.err with
      | some _ => Outcome.panicked
      | none => Outcome.ok [w.buf]
    else
      sealLoop segSize skKey fuel enc signer counter buf2 start input2

/-- Mirrors `Sealer::seal`, split into the header prelude bytes and the
list of wire segments (the writer receives their concatenation). -/
def Sealer.sealParts (s : Sealer) (plain : List Nat) :
    Outcome (List Nat × List (List Nat)) :=
  let headerVec := encHeader s.header
  if headerVec.length ≥ 2 ^ 32 then Outcome.err PgError.FormatViolation
  else
    let out0 := PRELUDE ++ beBytes 2 VERSION_V3 ++ beBytes 4 headerVec.length ++ headerVec
    let signer := headerVec
    let header_sig := ibsSign s.pub_sign_key.key signer
    let header_sig_bytes := encSigExt header_sig s.pub_sign_key.policy
    if header_sig_bytes.length ≥ 2 ^ 32 then Outcome.err PgError.FormatViolation
    else
      let out1 := out0 ++ beBytes 4 header_sig_bytes.length ++ header_sig_bytes
      let enc := Deck.new s.key s.nonce
      let signing_key := s.priv_sign_key.getD s.pub_sign_key
      let pol_bytes := encPolicy signing_key.policy
      if pol_bytes.length + POL_SIZE_SIZE > s.segment_size then
        Outcome.err PgError.ConstraintViolation
      else
        if pol_bytes.length ≥ 2 ^ 32 then Outcome.err PgError.FormatViolation
        else
          let buf0 := beBytes 4 pol_bytes.length ++ pol_bytes
          (sealLoop s.segment_size signing_key.key (plain.length + 3) enc signer 0 buf0
              buf0.length plain).map
            fun segs => (out1, segs)

/-- Mirrors `Sealer::seal` as the full written byte stream. -/
def Sealer.seal (s : Sealer) (plain : List Nat) : Outcome (List Nat) :=
  (s.sealParts plain).map fun parts => parts.1 ++ parts.2.flatten

/-!
The Unsealer, translated from src/pg-core/src/client/rust/stream.rs
(`Unsealer::new`, `extract_policy`, `verify_segment`, `Unsealer::unseal`).
-/

/-- The streaming `Unsealer` state after header verification: the header,
the header signer policy (`pub_id` in the source), the segment size, the
remaining payload bytes, the verifier transcript, and the verifying key. -/
structure Unsealer where
  header : Header
  pub_id : Policy
  segment_size : Nat
  r : List Nat
  verifier : List Nat
  vk : List Nat
deriving DecidableEq

/-- Mirrors `Unsealer::<UnsealerStreamConfig>::new`: read and check the
preamble, read the header bytes and the length-prefixed header signature,
verify the header signature under the signer policy it carries, then
deserialize the header.  `preamble_checked` and `stream_mode_checked` are
modelled from the spec (sections 4.3 and 4.5). -/
def Unsealer.new (stream : List Nat) (vk : List Nat) : Outcome Unsealer :=
  if stream.length < PREAMBLE_SIZE then Outcome.err PgError.NotPostGuard
  else
    let preamble := stream.take PREAMBLE_SIZE
    let rest := stream.drop PREAMBLE_SIZE
    if preamble.take 4 ≠ PRELUDE then Outcome.err PgError.NotPostGuard
    else
      match decBe 2 (preamble.drop 4) with
      | none => Outcome.err PgError.FormatViolation
      | some (version, lenBytes) =>
        if version ≠ VERSION_V3 then Outcome.err PgError.UnknownVersion
        else
          match decBe 4 lenBytes with
          | none => Outcome.err PgError.FormatViolation
          | some (header_len, _) =>
            let header_raw := rest.take header_len
            let rest2 := rest.drop header_len
            if rest2.length < SIG_SIZE_SIZE then Outcome.err PgError.FormatViolation
            else
              match decBe 4 rest2 with
              | none => Outcome.err PgError.FormatViolation
              | some (header_sig_len, rest3) =>
                let header_sig_raw := rest3.take header_sig_len
                let rest4 := rest3.drop header_sig_len
                match decSigExt header_sig_raw with
                | none => Outcome.err PgError.FormatViolation
                | some (sig, pol) =>
                  match pol.derive_ibs with
                  | Except.error _ => Outcome.err PgError.ConstraintViolation
                  | Except.ok pub_id =>
                    if ibsVerify vk header_raw sig pub_id then
                      match decHeader header_raw with
                      | none => Outcome.err PgError.FormatViolation
                      | some (header, _) =>
                        Outcome.ok (Unsealer.mk header pol header.mode.segment_size rest4
                          header_raw vk)
                    else Outcome.err PgError.IncorrectSignature

/-- Mirrors the inner `extract_policy` of `Unsealer::unseal`: read the
4-byte big-endian policy length, deserialize the signer policy, derive its
IBS identity and drain the policy region from the buffer.  Slicing beyond
the buffer is a panic. -/
def extract_policy (buf : List Nat) : Outcome ((Policy × List Nat) × List Nat) :=
  if buf.length < POL_SIZE_SIZE then Outcome.panicked
  else
    match decBe 4 buf with
    | none => Outcome.panicked
    | some (pol_len, _) =>
      if buf.length < POL_SIZE_SIZE + pol_len then Outcome.panicked
      else
        let pol_bytes := (buf.drop POL_SIZE_SIZE).take pol_len
        match decPolicy pol_bytes with
        | none => Outcome.err PgError.FormatViolation
        | some (pol, _) =>
          match pol.derive_ibs with
          | Except.error _ => Outcome.err PgError.ConstraintViolation
          | Except.ok id => Outcome.ok ((pol, id), buf.drop (POL_SIZE_SIZE + pol_len))

/-- Mirrors the inner `verify_segment` of `Unsealer::unseal`: split the
trailing `SIG_BYTES` signature bytes off the segment (a panic when the
segment is shorter), extend the verifier transcript with the message part,
and verify the signature bound to the counter and the terminal flag.
Returns the message part and the extended transcript. -/
def verify_segment (seg : List Nat) (verifier : List Nat) (vk : List Nat) (id : List Nat)
    (counter : Nat) (is_last : Bool) : Outcome (List Nat × List Nat) :=
  if seg.length < SIG_BYTES then Outcome.panicked
  else
    let m := seg.take (seg.length - SIG_BYTES)
    let sig_bytes := seg.drop (seg.length - SIG_BYTES)
    let verifier2 := verifier ++ m
    if ibsVerify vk (verifier2 ++ beBytes 4 counter ++ [if is_last then 1 else 0])
        sig_bytes id
    then Outcome.ok (m, verifier2)
    else Outcome.err PgError.IncorrectSignature

/-- The segment loop of `Unsealer::unseal`, one iteration per recursive
call.  Arguments after the fuel: the Deck, the verifier transcript, the
segment counter, the recovered signer policy and identity (from segment
0), the buffer contents, the remaining input, and the plaintext written so
far.  The `.unwrap()` calls on `unwrap` / `unwrap_last` turn Deck errors
into panics; `pol_id.as_ref().unwrap()` panics when no policy was
recovered.  Returns the written plaintext and the recovered signer
policy. -/
def unsealLoop (bufsize : Nat) (vk : List Nat) :
    Nat → Deck → List Nat → Nat → Option (Policy × List Nat) → List Nat → List Nat →
      List Nat → Outcome (List Nat × Option (Policy × List Nat))
  | 0, _, _, _, _, _, _, _ => Outcome.err PgError.Unexpected
  | fuel + 1, dec, verifier, counter, pol_id, buf, input, out =>
    let r := min (bufsize - buf.length) input.length
    let buf2 := buf ++ input.take r
    let input2 := input.drop r
    if buf2.length = bufsize then
      match dec.unwrap buf2 with
      | none => Outcome.panicked
      | some (_, _, some _) => Outcome.panicked
      | some (dec2, b, none) =>
        (if counter = 0 then (extract_policy b).map fun pr => (some pr.1, pr.2)
         else Outcome.ok (pol_id, b)).bind fun si =>
          match si.1 with
          | none => Outcome.panicked
          | some pi =>
            (verify_segment si.2 verifier vk pi.2 counter false).bind fun mv =>
              unsealLoop bufsize vk fuel dec2 mv.2 (counter + 1) (some pi) [] input2
                (out ++ mv.1)
    else if r = 0 then
      match dec.unwrap_last buf2 with
      | none => Outcome.panicked
      | some (_, _, some _) => Outcome.panicked
      | some (_, b, none) =>
        (if counter = 0 then (extract_policy b).map fun pr => (some pr.1, pr.2)
         else Outcome.ok (pol_id, b)).bind fun si =>
          match si.1 with
          | none => Outcome.panicked
          | some pi =>
            (verify_segment si.2 verifier vk pi.2 counter true).bind fun mv =>
              Outcome.ok (out ++ mv.1, some pi)
    else
      unsealLoop bufsize vk fuel dec verifier counter pol_id buf2 input2 out

/-- Mirrors `Unsealer::unseal`: look the recipient up, decapsulate the
shared secret, initialize the Deck from the derived key and nonce (slicing
panics when the secret or the iv are too short), run the segment loop and
assemble the `VerificationResult`: `private` is `None` exactly when the
recovered payload signer policy equals the header signer policy. -/
def Unsealer.unseal (u : Unsealer) (ident : List Nat) (usk : UserSecretKey) :
    Outcome (List Nat × VerificationResult) :=
  match u.header.recipients.find? (fun rp => rp.1 == ident) with
  | none => Outcome.err (PgError.UnknownIdentifier ident)
  | some rp =>
    let ss := kemDecaps usk rp.2.kem_ct
    if ss.length < KEY_SIZE ∨ u.header.algo.length < STREAM_NONCE_SIZE then Outcome.panicked
    else
      let key := ss.take KEY_SIZE
      let nonce := u.header.algo.take STREAM_NONCE_SIZE
      let dec := Deck.new key nonce
      let bufsize := u.segment_size + SIG_BYTES + TAG_SIZE
      (unsealLoop bufsize u.vk (u.r.length + 3) dec u.verifier 0 none [] u.r []).bind
        fun res =>
          match res.2 with
          | none => Outcome.panicked
          | some pi =>
            Outcome.ok (res.1, VerificationResult.mk u.pub_id
              (if u.pub_id = pi.1 then none else some pi.1))

/-- Sealing pipeline: construct the sealer, install the optional private
signing key, seal the plaintext. -/
def sealStream (pk : List Nat) (policies : List (List Nat × Policy))
    (pubSk : SigningKeyExt) (privSk : Option SigningKeyExt) (ss iv plain : List Nat) :
    Outcome (List Nat) :=
  (Sealer.new pk policies pubSk ss iv).bind fun s =>
    Sealer.seal { s with priv_sign_key := privSk } plain

/-- Unsealing pipeline: verify the header, then unseal for a recipient. -/
def unsealStream (stream vk ident : List Nat) (usk : UserSecretKey) :
    Outcome (List Nat × VerificationResult) :=
  (Unsealer.new stream vk).bind fun u => u.unseal ident usk

/-!
Honest-pipeline simulation: the unsealer recovers exactly what the sealer
wrote.  First the header phase.
-/

theorem take_append_of_len (a b : List Nat) (n : Nat) (h : a.length = n) :
    (a ++ b).take n = a := by
  rw [← h, take_len_left]

theorem drop_append_of_len (a b : List Nat) (n : Nat) (h : a.length = n) :
    (a ++ b).drop n = b := by
  rw [← h, drop_len_left]

theorem unsealerNew_header (h : Header) (pol : Policy) (sig vk payload : List Nat)
    (pubId : List Nat)
    (hwf : h.bwf) (hpol : pol.bwf) (hslen : sig.length = SIG_BYTES)
    (hh32 : (encHeader h).length < 2 ^ 32)
    (hsig32 : (encSigExt sig pol).length < 2 ^ 32)
    (hderive : pol.derive_ibs = Except.ok pubId)
    (hver : ibsVerify vk (encHeader h) sig pubId = true) :
    Unsealer.new
      (PRELUDE ++ (beBytes 2 VERSION_V3 ++ (beBytes 4 (encHeader h).length ++
        (encHeader h ++ (beBytes 4 (encSigExt sig pol).length ++
          (encSigExt sig pol ++ payload)))))) vk =
      Outcome.ok (Unsealer.mk h pol h.mode.segment_size payload (encHeader h) vk) := by
  have hlen10 : ¬(PRELUDE ++ (beBytes 2 VERSION_V3 ++ (beBytes 4 (encHeader h).length ++
      (encHeader h ++ (beBytes 4 (encSigExt sig pol).length ++
        (encSigExt sig pol ++ payload)))))).length < PREAMBLE_SIZE := by
    simp [PRELUDE, beBytes_length, PREAMBLE_SIZE]
    omega
  have hpre : (PRELUDE ++ (beBytes 2 VERSION_V3 ++ (beBytes 4 (encHeader h).length ++
      (encHeader h ++ (beBytes 4 (encSigExt sig pol).length ++
        (encSigExt sig pol ++ payload)))))).take PREAMBLE_SIZE =
      PRELUDE ++ (beBytes 2 VERSION_V3 ++ beBytes 4 (encHeader h).length) := by
    rw [show PREAMBLE_SIZE = PRELUDE.length + 6 from rfl, List.take_append]
    congr 1
  have hdropPre : (PRELUDE ++ (beBytes 2 VERSION_V3 ++ (beBytes 4 (encHeader h).length ++
      (encHeader h ++ (beBytes 4 (encSigExt sig pol).length ++
        (encSigExt sig pol ++ payload)))))).drop PREAMBLE_SIZE =
      encHeader h ++ (beBytes 4 (encSigExt sig pol).length ++
        (encSigExt sig pol ++ payload)) := by
    rw [show PREAMBLE_SIZE = PRELUDE.length + 6 from rfl, List.drop_append]
    congr 1
  have hpre4 : (PRELUDE ++ (beBytes 2 VERSION_V3 ++ beBytes 4 (encHeader h).length)).take 4 =
      PRELUDE :=
    take_append_of_len _ _ 4 rfl
  have hpredrop : (PRELUDE ++
      (beBytes 2 VERSION_V3 ++ beBytes 4 (encHeader h).length)).drop 4 =
      beBytes 2 VERSION_V3 ++ beBytes 4 (encHeader h).length :=
    drop_append_of_len _ _ 4 rfl
  have hdec2 : decBe 2 (beBytes 2 VERSION_V3 ++ beBytes 4 (encHeader h).length) =
      some (VERSION_V3, beBytes 4 (encHeader h).length) :=
    decBe_beBytes 2 VERSION_V3 _ (by norm_num [VERSION_V3])
  have hdec4 : decBe 4 (beBytes 4 (encHeader h).length) = some ((encHeader h).length, []) := by
    have h2 := decBe_beBytes 4 (encHeader h).length [] (by norm_num at hh32 ⊢; omega)
    simpa using h2
  have hrawtake : (encHeader h ++ (beBytes 4 (encSigExt sig pol).length ++
      (encSigExt sig pol ++ payload))).take (encHeader h).length = encHeader h :=
    take_len_left _ _
  have hrawdrop : (encHeader h ++ (beBytes 4 (encSigExt sig pol).length ++
      (encSigExt sig pol ++ payload))).drop (encHeader h).length =
      beBytes 4 (encSigExt sig pol).length ++ (encSigExt sig pol ++ payload) :=
    drop_len_left _ _
  have hsiglenok : ¬(beBytes 4 (encSigExt sig pol).length ++
      (encSigExt sig pol ++ payload)).length < SIG_SIZE_SIZE := by
    simp [beBytes_length, SIG_SIZE_SIZE]
  have hdecsig4 : decBe 4 (beBytes 4 (encSigExt sig pol).length ++
      (encSigExt sig pol ++ payload)) =
      some ((encSigExt sig pol).length, encSigExt sig pol ++ payload) :=
    decBe_beBytes 4 (encSigExt sig pol).length _ (by norm_num at hsig32 ⊢; omega)
  have hsbtake : (encSigExt sig pol ++ payload).take (encSigExt sig pol).length =
      encSigExt sig pol := take_len_left _ _
  have hsbdrop : (encSigExt sig pol ++ payload).drop (encSigExt sig pol).length = payload :=
    drop_len_left _ _
  have hdecSB : decSigExt (encSigExt sig pol) = some (sig, pol) :=
    decSigExt_enc sig pol hslen hpol
  have hdechv : decHeader (encHeader h) = some (h, []) := by
    have h2 := decHeader_enc h [] hwf
    simpa using h2
  unfold Unsealer.new
  rw [if_neg hlen10]
  simp only [hpre, hdropPre, hpre4, hpredrop, hdec2, hdec4, hrawtake, hrawdrop,
    hsiglenok, hdecsig4, hsbtake, hsbdrop, hdecSB, hdechv, hderive, hver, ne_eq,
    not_true_eq_false, if_false, ite_false, ite_true, if_true, not_false_eq_true,
    reduceIte]

theorem verify_segment_honest (P verifier vk id : List Nat) (c : Nat) (flag : Bool)
    (sg : List Nat)
    (hsg : sg = ibsSign (ibsUsk vk id)
      (verifier ++ P ++ beBytes 4 c ++ [if flag then 1 else 0])) :
    verify_segment (P ++ sg) verifier vk id c flag = Outcome.ok (P, verifier ++ P) := by
  have hsgl : sg.length = SIG_BYTES := by
    rw [hsg]
    exact prfBytes_length _ _
  have harith : (P ++ sg).length - SIG_BYTES = P.length := by
    simp [hsgl]
  have e_m : (P ++ sg).take P.length = P := take_len_left _ _
  have e_s : (P ++ sg).drop P.length = sg := drop_len_left _ _
  have hcond : ibsVerify vk (verifier ++ P ++ beBytes 4 c ++ [if flag then 1 else 0])
      sg id = true := by
    rw [hsg]
    unfold ibsVerify
    exact beq_self_eq_true _
  unfold verify_segment
  rw [if_neg (by simp [hsgl, SIG_BYTES])]
  simp only [harith, e_m, e_s]
  rw [if_pos hcond]

set_option maxHeartbeats 2000000 in
theorem extract_policy_honest (spol : Policy) (sid T : List Nat)
    (hder : spol.derive_ibs = Except.ok sid) (hwfp : spol.bwf)
    (hpl32 : (encPolicy spol).length < 2 ^ 32) :
    extract_policy (beBytes 4 (encPolicy spol).length ++ (encPolicy spol ++ T)) =
      Outcome.ok ((spol, sid), T) := by
  have h4 : (beBytes 4 (encPolicy spol).length).length = 4 := beBytes_length _ _
  have hblen : (beBytes 4 (encPolicy spol).length ++ (encPolicy spol ++ T)).length =
      4 + (encPolicy spol).length + T.length := by
    rw [List.length_append, List.length_append, h4]
    omega
  have hdec : decBe 4 (beBytes 4 (encPolicy spol).length ++ (encPolicy spol ++ T)) =
      some ((encPolicy spol).length, encPolicy spol ++ T) :=
    decBe_beBytes 4 _ _ (by norm_num at hpl32 ⊢; omega)
  have hdrop4 : (beBytes 4 (encPolicy spol).length ++ (encPolicy spol ++ T)).drop
      POL_SIZE_SIZE = encPolicy spol ++ T :=
    drop_append_of_len _ _ _ h4
  have htakepol : (encPolicy spol ++ T).take (encPolicy spol).length = encPolicy spol :=
    take_len_left _ _
  have hdecpol : decPolicy (encPolicy spol) = some (spol, []) := by
    have h2 := decPolicy_enc spol [] hwfp
    simpa using h2
  have hdropall : (beBytes 4 (encPolicy spol).length ++ (encPolicy spol ++ T)).drop
      (POL_SIZE_SIZE + (encPolicy spol).length) = T := by
    rw [show POL_SIZE_SIZE + (encPolicy spol).length =
      (beBytes 4 (encPolicy spol).length).length + (encPolicy spol).length by
        unfold POL_SIZE_SIZE; rw [h4],
      List.drop_append, drop_append_of_len _ _ _ rfl]
  unfold extract_policy
  rw [if_neg (by rw [hblen]; unfold POL_SIZE_SIZE; omega), hdec]
  simp only [hdrop4, htakepol, hdecpol, hder, hdropall]
  rw [if_neg (by rw [hblen]; unfold POL_SIZE_SIZE; omega)]

theorem unsealLoop_empty_panic (bufsize : Nat) (vk : List Nat) (fuel : Nat) (d : Deck)
    (verifier : List Nat) (c : Nat) (pid : Option (Policy × List Nat)) (out : List Nat)
    (hbs : bufsize ≠ 0) :
    unsealLoop bufsize vk (fuel + 1) d verifier c pid [] [] out = Outcome.panicked := by
  simp only [unsealLoop, List.length_nil, Nat.sub_zero, Nat.min_zero, List.take_nil,
    List.append_nil, List.drop_nil]
  rw [if_neg (by simpa using Ne.symm hbs), if_pos trivial]
  have hu : Deck.unwrap_last d [] = none := by
    rw [Deck.unwrap_last]
    unfold Deck.unwrapM
    rw [if_pos (by norm_num [COUNTER_LEN])]
  rw [hu]

theorem unsealLoop_partial_step (bufsize : Nat) (vk : List Nat) (fuel : Nat) (d : Deck)
    (verifier : List Nat) (c : Nat) (pid : Option (Policy × List Nat)) (W out : List Nat)
    (h1 : W.length < bufsize) (h2 : W ≠ []) :
    unsealLoop bufsize vk (fuel + 1) d verifier c pid [] W out =
      unsealLoop bufsize vk fuel d verifier c pid W [] out := by
  have hWlen : W.length ≠ 0 := fun h => h2 (List.length_eq_zero.mp h)
  have e_r : min (bufsize - List.length ([] : List Nat)) W.length = W.length := by
    simp only [List.length_nil, Nat.sub_zero]
    exact Nat.min_eq_right (Nat.le_of_lt h1)
  simp only [unsealLoop, e_r, List.take_length, List.nil_append, List.drop_length]
  rw [if_neg (by omega), if_neg hWlen]

set_option maxHeartbeats 2000000 in
theorem unsealLoop_full_step (bufsize : Nat) (vk : List Nat) (fuel : Nat) (X : Xoofff)
    (cdec cw c : Nat) (pi : Policy × List Nat) (verifier P sg rest out : List Nat)
    (hc : c ≠ 0)
    (hsg : sg = ibsSign (ibsUsk vk pi.2) (verifier ++ P ++ beBytes 4 c ++ [0]))
    (hsize : P.length + SIG_BYTES + TAG_SIZE = bufsize) :
    unsealLoop bufsize vk (fuel + 1) ⟨X, cdec⟩ verifier c (some pi) []
      ((Deck.wrapM ⟨X, cw⟩ (P ++ sg)).buf ++ rest) out =
    unsealLoop bufsize vk fuel ⟨X, cdec⟩ (verifier ++ P) (c + 1) (some pi) [] rest
      (out ++ P) := by
  have hsgl : sg.length = SIG_BYTES := by rw [hsg]; exact prfBytes_length _ _
  have hWl : ((Deck.wrapM ⟨X, cw⟩ (P ++ sg)).buf).length = bufsize := by
    rw [Deck.wrapM_buf_length, List.length_append, hsgl]
    unfold SIG_BYTES TAG_SIZE at hsize
    unfold COUNTER_TAG_LEN TAG_LEN COUNTER_LEN SIG_BYTES
    omega
  have e_r : min (bufsize - List.length ([] : List Nat))
      ((Deck.wrapM ⟨X, cw⟩ (P ++ sg)).buf ++ rest).length = bufsize := by
    simp only [List.length_nil, Nat.sub_zero, List.length_append, hWl]
    exact Nat.min_eq_left (Nat.le_add_right _ _)
  have e_take : ((Deck.wrapM ⟨X, cw⟩ (P ++ sg)).buf ++ rest).take bufsize =
      (Deck.wrapM ⟨X, cw⟩ (P ++ sg)).buf := take_append_of_len _ _ _ hWl
  have e_drop : ((Deck.wrapM ⟨X, cw⟩ (P ++ sg)).buf ++ rest).drop bufsize = rest :=
    drop_append_of_len _ _ _ hWl
  have e_unwrap : Deck.unwrap ⟨X, cdec⟩ ((Deck.wrapM ⟨X, cw⟩ (P ++ sg)).buf) =
      some (⟨X, cdec⟩, P ++ sg, none) := Deck.unwrap_wrapM X cw cdec (P ++ sg)
  have e_ver : verify_segment (P ++ sg) verifier vk pi.2 c false =
      Outcome.ok (P, verifier ++ P) :=
    verify_segment_honest P verifier vk pi.2 c false sg (by rw [hsg]; norm_num)
  simp only [unsealLoop, e_r, e_take, e_drop, List.nil_append]
  rw [if_pos hWl]
  simp only [e_unwrap]
  rw [if_neg hc]
  simp only [Outcome.bind, e_ver]

set_option maxHeartbeats 2000000 in
theorem unsealLoop_final_step (bufsize : Nat) (vk : List Nat) (fuel : Nat) (X : Xoofff)
    (cdec cw c : Nat) (pi : Policy × List Nat) (verifier P sg out : List Nat)
    (hc : c ≠ 0)
    (hsg : sg = ibsSign (ibsUsk vk pi.2) (verifier ++ P ++ beBytes 4 c ++ [1]))
    (hsize : P.length + SIG_BYTES + TAG_SIZE < bufsize) :
    unsealLoop bufsize vk (fuel + 1) ⟨X, cdec⟩ verifier c (some pi)
      ((Deck.wrapM ⟨X, cw⟩ (P ++ sg)).buf) [] out =
    Outcome.ok (out ++ P, some pi) := by
  have hsgl : sg.length = SIG_BYTES := by rw [hsg]; exact prfBytes_length _ _
  have hWl : ((Deck.wrapM ⟨X, cw⟩ (P ++ sg)).buf).length =
      P.length + SIG_BYTES + TAG_SIZE := by
    rw [Deck.wrapM_buf_length, List.length_append, hsgl]
    unfold COUNTER_TAG_LEN TAG_LEN COUNTER_LEN SIG_BYTES TAG_SIZE
    omega
  have e_unwrap : Deck.unwrap_last ⟨X, cdec⟩ ((Deck.wrapM ⟨X, cw⟩ (P ++ sg)).buf) =
      some (⟨X, cdec⟩, P ++ sg, none) := Deck.unwrap_wrapM X cw cdec (P ++ sg)
  have e_ver : verify_segment (P ++ sg) verifier vk pi.2 c true =
      Outcome.ok (P, verifier ++ P) :=
    verify_segment_honest P verifier vk pi.2 c true sg (by rw [hsg]; norm_num)
  simp only [unsealLoop, List.length_nil, Nat.min_zero, List.take_nil, List.append_nil,
    List.drop_nil]
  rw [if_neg (by omega), if_pos trivial]
  simp only [e_unwrap]
  rw [if_neg hc]
  simp only [Outcome.bind, e_ver]

set_option maxHeartbeats 2000000 in
theorem unsealLoop_full_step0 (bufsize : Nat) (vk : List Nat) (fuel : Nat) (X : Xoofff)
    (cdec cw : Nat) (spol : Policy) (sid : List Nat) (verifier Q sg rest out : List Nat)
    (hder : spol.derive_ibs = Except.ok sid) (hwfp : spol.bwf)
    (hpl32 : (encPolicy spol).length < 2 ^ 32)
    (hsg : sg = ibsSign (ibsUsk vk sid) (verifier ++ Q ++ beBytes 4 0 ++ [0]))
    (hsize : 4 + (encPolicy spol).length + Q.length + SIG_BYTES + TAG_SIZE = bufsize) :
    unsealLoop bufsize vk (fuel + 1) ⟨X, cdec⟩ verifier 0 none []
      ((Deck.wrapM ⟨X, cw⟩
        (beBytes 4 (encPolicy spol).length ++ encPolicy spol ++ Q ++ sg)).buf ++ rest)
      out =
    unsealLoop bufsize vk fuel ⟨X, cdec⟩ (verifier ++ Q) 1 (some (spol, sid)) [] rest
      (out ++ Q) := by
  have hsgl : sg.length = SIG_BYTES := by rw [hsg]; exact prfBytes_length _ _
  have hWl : ((Deck.wrapM ⟨X, cw⟩
      (beBytes 4 (encPolicy spol).length ++ encPolicy spol ++ Q ++ sg)).buf).length =
      bufsize := by
    rw [Deck.wrapM_buf_length]
    simp only [List.length_append, hsgl, beBytes_length]
    unfold SIG_BYTES TAG_SIZE at hsize
    unfold COUNTER_TAG_LEN TAG_LEN COUNTER_LEN SIG_BYTES
    omega
  have e_r : min (bufsize - List.length ([] : List Nat))
      ((Deck.wrapM ⟨X, cw⟩
        (beBytes 4 (encPolicy spol).length ++ encPolicy spol ++ Q ++ sg)).buf ++
        rest).length = bufsize := by
    simp only [List.length_nil, Nat.sub_zero, List.length_append, hWl]
    exact Nat.min_eq_left (Nat.le_add_right _ _)
  have e_take : ((Deck.wrapM ⟨X, cw⟩
      (beBytes 4 (encPolicy spol).length ++ encPolicy spol ++ Q ++ sg)).buf ++
      rest).take bufsize =
      (Deck.wrapM ⟨X, cw⟩
        (beBytes 4 (encPolicy spol).length ++ encPolicy spol ++ Q ++ sg)).buf :=
    take_append_of_len _ _ _ hWl
  have e_drop : ((Deck.wrapM ⟨X, cw⟩
      (beBytes 4 (encPolicy spol).length ++ encPolicy spol ++ Q ++ sg)).buf ++
      rest).drop bufsize = rest :=
    drop_append_of_len _ _ _ hWl
  have e_unwrap : Deck.unwrap ⟨X, cdec⟩ ((Deck.wrapM ⟨X, cw⟩
      (beBytes 4 (encPolicy spol).length ++ encPolicy spol ++ Q ++ sg)).buf) =
      some (⟨X, cdec⟩, beBytes 4 (encPolicy spol).length ++ encPolicy spol ++ Q ++ sg,
        none) :=
    Deck.unwrap_wrapM X cw cdec _
  have e_assoc : beBytes 4 (encPolicy spol).length ++ encPolicy spol ++ Q ++ sg =
      beBytes 4 (encPolicy spol).length ++ (encPolicy spol ++ (Q ++ sg)) := by
    simp [List.append_assoc]
  have e_extract : extract_policy
      (beBytes 4 (encPolicy spol).length ++ encPolicy spol ++ Q ++ sg) =
      Outcome.ok ((spol, sid), Q ++ sg) := by
    rw [e_assoc]
    exact extract_policy_honest spol sid (Q ++ sg) hder hwfp hpl32
  have e_ver : verify_segment (Q ++ sg) verifier vk sid 0 false =
      Outcome.ok (Q, verifier ++ Q) :=
    verify_segment_honest Q verifier vk sid 0 false sg (by rw [hsg]; norm_num)
  simp only [unsealLoop, e_r, e_take, e_drop, List.nil_append]
  rw [if_pos hWl]
  simp only [e_unwrap]
  rw [if_pos trivial]
  simp only [e_extract, Outcome.map, Outcome.bind, e_ver]

set_option maxHeartbeats 2000000 in
theorem unsealLoop_final_step0 (bufsize : Nat) (vk : List Nat) (fuel : Nat) (X : Xoofff)
    (cdec cw : Nat) (spol : Policy) (sid : List Nat) (verifier Q sg out : List Nat)
    (hder : spol.derive_ibs = Except.ok sid) (hwfp : spol.bwf)
    (hpl32 : (encPolicy spol).length < 2 ^ 32)
    (hsg : sg = ibsSign (ibsUsk vk sid) (verifier ++ Q ++ beBytes 4 0 ++ [1]))
    (hsize : 4 + (encPolicy spol).length + Q.length + SIG_BYTES + TAG_SIZE < bufsize) :
    unsealLoop bufsize vk (fuel + 1) ⟨X, cdec⟩ verifier 0 none
      ((Deck.wrapM ⟨X, cw⟩
        (beBytes 4 (encPolicy spol).length ++ encPolicy spol ++ Q ++ sg)).buf) [] out =
    Outcome.ok (out ++ Q, some (spol, sid)) := by
  have hsgl : sg.length = SIG_BYTES := by rw [hsg]; exact prfBytes_length _ _
  have hWl : ((Deck.wrapM ⟨X, cw⟩
      (beBytes 4 (encPolicy spol).length ++ encPolicy spol ++ Q ++ sg)).buf).length =
      4 + (encPolicy spol).length + Q.length + SIG_BYTES + TAG_SIZE := by
    rw [Deck.wrapM_buf_length]
    simp only [List.length_append, hsgl, beBytes_length]
    unfold COUNTER_TAG_LEN TAG_LEN COUNTER_LEN SIG_BYTES TAG_SIZE
    omega
  have e_unwrap : Deck.unwrap_last ⟨X, cdec⟩ ((Deck.wrapM ⟨X, cw⟩
      (beBytes 4 (encPolicy spol).length ++ encPolicy spol ++ Q ++ sg)).buf) =
      some (⟨X, cdec⟩, beBytes 4 (encPolicy spol).length ++ encPolicy spol ++ Q ++ sg,
        none) :=
    Deck.unwrap_wrapM X cw cdec _
  have e_assoc : beBytes 4 (encPolicy spol).length ++ encPolicy spol ++ Q ++ sg =
      beBytes 4 (encPolicy spol).length ++ (encPolicy spol ++ (Q ++ sg)) := by
    simp [List.append_assoc]
  have e_extract : extract_policy
      (beBytes 4 (encPolicy spol).length ++ encPolicy spol ++ Q ++ sg) =
      Outcome.ok ((spol, sid), Q ++ sg) := by
    rw [e_assoc]
    exact extract_policy_honest spol sid (Q ++ sg) hder hwfp hpl32
  have e_ver : verify_segment (Q ++ sg) verifier vk sid 0 true =
      Outcome.ok (Q, verifier ++ Q) :=
    verify_segment_honest Q verifier vk sid 0 true sg (by rw [hsg]; norm_num)
  simp only [unsealLoop, List.length_nil, Nat.min_zero, List.take_nil, List.append_nil,
    List.drop_nil]
  rw [if_neg (by omega), if_pos trivial]
  simp only [e_unwrap]
  rw [if_pos trivial]
  simp only [e_extract, Outcome.map, Outcome.bind, e_ver]

set_option maxHeartbeats 2000000 in
theorem sealLoop_full_step (segSize : Nat) (sk : List Nat) (fuel : Nat) (X : Xoofff)
    (c s : Nat) (verifier B input : List Nat)
    (hc : c ≠ 2 ^ 32 - 1)
    (hfit : B.length ≤ segSize) (hlen : segSize ≤ B.length + input.length) :
    sealLoop segSize sk (fuel + 1) ⟨X, c⟩ verifier c B s input =
      (sealLoop segSize sk fuel ⟨X, c + 1⟩
        (verifier ++ (B ++ input.take (segSize - B.length)).drop s) (c + 1) [] 0
        (input.drop (segSize - B.length))).map
        fun segs =>
          (Deck.wrapM ⟨X, c⟩ (B ++ input.take (segSize - B.length) ++
            ibsSign sk (verifier ++ (B ++ input.take (segSize - B.length)).drop s ++
              beBytes 4 c ++ [0]))).buf :: segs := by
  have e_r : min (segSize - B.length) input.length = segSize - B.length :=
    Nat.min_eq_left (by omega)
  have e_len : (B ++ input.take (segSize - B.length)).length = segSize := by
    rw [List.length_append, List.length_take]
    omega
  have e_err : (Deck.wrap ⟨X, c⟩ (B ++ input.take (segSize - B.length) ++
      ibsSign sk (verifier ++ (B ++ input.take (segSize - B.length)).drop s ++
        beBytes 4 c ++ [0]))).err = none := by
    rw [Deck.wrap]
    exact (Deck.wrapM_ok _ _ hc).1
  have e_deck : (Deck.wrap ⟨X, c⟩ (B ++ input.take (segSize - B.length) ++
      ibsSign sk (verifier ++ (B ++ input.take (segSize - B.length)).drop s ++
        beBytes 4 c ++ [0]))).deck = ⟨X, c + 1⟩ := by
    rw [Deck.wrap]
    exact (Deck.wrapM_ok _ _ hc).2
  simp only [sealLoop, e_r]
  rw [if_pos e_len]
  simp only [e_err]
  rw [if_neg hc, e_deck]
  rfl

set_option maxHeartbeats 2000000 in
theorem sealLoop_partial_step (segSize : Nat) (sk : List Nat) (fuel : Nat) (X : Xoofff)
    (c s : Nat) (verifier B input : List Nat)
    (h1 : 0 < input.length) (h2 : B.length + input.length < segSize) :
    sealLoop segSize sk (fuel + 1) ⟨X, c⟩ verifier c B s input =
      sealLoop segSize sk fuel ⟨X, c⟩ verifier c (B ++ input) s [] := by
  have e_r : min (segSize - B.length) input.length = input.length :=
    Nat.min_eq_right (by omega)
  simp only [sealLoop, e_r, List.take_length, List.drop_length]
  rw [if_neg (by rw [List.length_append]; omega), if_neg (by omega)]

set_option maxHeartbeats 2000000 in
theorem sealLoop_final_step (segSize : Nat) (sk : List Nat) (fuel : Nat) (X : Xoofff)
    (c s : Nat) (verifier B : List Nat)
    (hc : c ≠ 2 ^ 32 - 1)
    (hlen : B.length ≠ segSize) :
    sealLoop segSize sk (fuel + 1) ⟨X, c⟩ verifier c B s [] =
      Outcome.ok [(Deck.wrapM ⟨X, c⟩ (B ++
        ibsSign sk (verifier ++ B.drop s ++ beBytes 4 c ++ [1]))).buf] := by
  have e_err : (Deck.wrap_last ⟨X, c⟩ (B ++
      ibsSign sk (verifier ++ B.drop s ++ beBytes 4 c ++ [1]))).err = none := by
    rw [Deck.wrap_last]
    exact (Deck.wrapM_ok _ _ hc).1
  simp only [sealLoop, List.length_nil, Nat.min_zero, List.take_nil, List.append_nil,
    List.drop_nil]
  rw [if_neg hlen, if_pos trivial]
  simp only [e_err]
  rfl

theorem sealUnseal_tail_last (segSize : Nat) (vk : List Nat) (pi : Policy × List Nat)
    (input : List Nat) (fuelS fuelU c cu : Nat) (X : Xoofff) (verifier out : List Nat)
    (hfS : 2 ≤ fuelS) (hfU : 2 ≤ fuelU) (hc : 1 ≤ c) (hcb : c ≠ 2 ^ 32 - 1)
    (hlen : input.length < segSize) :
    ∃ segs : List (List Nat),
      sealLoop segSize (ibsUsk vk pi.2) fuelS ⟨X, c⟩ verifier c [] 0 input =
        Outcome.ok segs ∧
      unsealLoop (segSize + SIG_BYTES + TAG_SIZE) vk fuelU ⟨X, cu⟩ verifier c (some pi)
        [] segs.flatten out = Outcome.ok (out ++ input, some pi) ∧
      (∀ j fu, j < segs.length → (segs.take j).flatten.length + 1 ≤ fu →
        unsealLoop (segSize + SIG_BYTES + TAG_SIZE) vk fu ⟨X, cu⟩ verifier c (some pi)
          [] (segs.take j).flatten out = Outcome.panicked) ∧
      input.length ≤ segs.flatten.length := by
  obtain ⟨g, rfl⟩ : ∃ g, fuelU = g + 2 := ⟨fuelU - 2, by omega⟩
  have hsgl : (ibsSign (ibsUsk vk pi.2)
      (verifier ++ input ++ beBytes 4 c ++ [1])).length = SIG_BYTES :=
    prfBytes_length _ _
  have hWlen : ((Deck.wrapM ⟨X, c⟩ (input ++
      ibsSign (ibsUsk vk pi.2) (verifier ++ input ++ beBytes 4 c ++ [1]))).buf).length =
      input.length + SIG_BYTES + TAG_SIZE := by
    rw [Deck.wrapM_buf_length, List.length_append, hsgl]
    unfold COUNTER_TAG_LEN TAG_LEN COUNTER_LEN SIG_BYTES TAG_SIZE
    omega
  refine ⟨[(Deck.wrapM ⟨X, c⟩ (input ++
    ibsSign (ibsUsk vk pi.2) (verifier ++ input ++ beBytes 4 c ++ [1]))).buf],
    ?_, ?_, ?_, ?_⟩
  · by_cases hin : input = []
    · subst hin
      obtain ⟨f, rfl⟩ : ∃ f, fuelS = f + 1 := ⟨fuelS - 1, by omega⟩
      have hstep := sealLoop_final_step segSize (ibsUsk vk pi.2) f X c 0 verifier []
        hcb (by simp only [List.length_nil] at hlen ⊢; omega)
      simpa using hstep
    · obtain ⟨f, rfl⟩ : ∃ f, fuelS = f + 2 := ⟨fuelS - 2, by omega⟩
      have hpos : 0 < input.length := List.length_pos.mpr hin
      have hstep1 := sealLoop_partial_step segSize (ibsUsk vk pi.2) (f + 1) X c 0
        verifier [] input hpos (by simpa using hlen)
      have hstep2 := sealLoop_final_step segSize (ibsUsk vk pi.2) f X c 0 verifier
        ([] ++ input) hcb (by simpa using Nat.ne_of_lt hlen)
      rw [hstep1, hstep2]
      simp
  · have hflat : ([(Deck.wrapM ⟨X, c⟩ (input ++
        ibsSign (ibsUsk vk pi.2) (verifier ++ input ++ beBytes 4 c ++ [1]))).buf] :
        List (List Nat)).flatten =
        (Deck.wrapM ⟨X, c⟩ (input ++
          ibsSign (ibsUsk vk pi.2) (verifier ++ input ++ beBytes 4 c ++ [1]))).buf := by
      simp
    rw [hflat]
    have hWne : (Deck.wrapM ⟨X, c⟩ (input ++
        ibsSign (ibsUsk vk pi.2) (verifier ++ input ++ beBytes 4 c ++ [1]))).buf ≠ [] := by
      intro h
      rw [h] at hWlen
      unfold SIG_BYTES TAG_SIZE at hWlen
      simp at hWlen
    rw [unsealLoop_partial_step _ _ _ _ _ _ _ _ _
      (by rw [hWlen]; unfold SIG_BYTES TAG_SIZE; omega) hWne]
    exact unsealLoop_final_step _ vk g X cu c c pi verifier input _ out
      (by omega) rfl (by unfold SIG_BYTES TAG_SIZE; omega)
  · intro j fu hj hfu
    simp only [List.length_singleton] at hj
    have hj0 : j = 0 := by omega
    subst hj0
    simp only [List.take_zero, List.flatten_nil, List.length_nil] at hfu ⊢
    obtain ⟨g2, rfl⟩ : ∃ g2, fu = g2 + 1 := ⟨fu - 1, by omega⟩
    exact unsealLoop_empty_panic _ vk g2 _ verifier c (some pi) out
      (by unfold SIG_BYTES TAG_SIZE; omega)
  · simp only [List.flatten_cons, List.flatten_nil, List.append_nil, hWlen]
    omega

set_option maxHeartbeats 4000000 in
theorem sealUnseal_tail (segSize : Nat) (vk : List Nat) (pi : Policy × List Nat)
    (n : Nat) :
    ∀ (input : List Nat) (fuelS fuelU c cu : Nat) (X : Xoofff) (verifier out : List Nat),
    input.length ≤ n →
    1 ≤ segSize →
    input.length + 2 ≤ fuelS →
    input.length + 2 ≤ fuelU →
    1 ≤ c →
    c + input.length < 2 ^ 32 - 1 →
    ∃ segs : List (List Nat),
      sealLoop segSize (ibsUsk vk pi.2) fuelS ⟨X, c⟩ verifier c [] 0 input =
        Outcome.ok segs ∧
      unsealLoop (segSize + SIG_BYTES + TAG_SIZE) vk fuelU ⟨X, cu⟩ verifier c (some pi)
        [] segs.flatten out = Outcome.ok (out ++ input, some pi) ∧
      (∀ j fu, j < segs.length → (segs.take j).flatten.length + 1 ≤ fu →
        unsealLoop (segSize + SIG_BYTES + TAG_SIZE) vk fu ⟨X, cu⟩ verifier c (some pi)
          [] (segs.take j).flatten out = Outcome.panicked) ∧
      input.length ≤ segs.flatten.length := by
  induction n with
  | zero =>
    intro input fuelS fuelU c cu X verifier out hn hseg hfS hfU hc hcb
    exact sealUnseal_tail_last segSize vk pi input fuelS fuelU c cu X verifier out
      (by omega) (by omega) hc (by omega) (by omega)
  | succ n ih =>
    intro input fuelS fuelU c cu X verifier out hn hseg hfS hfU hc hcb
    by_cases hlen : input.length < segSize
    · exact sealUnseal_tail_last segSize vk pi input fuelS fuelU c cu X verifier out
        (by omega) (by omega) hc (by omega) hlen
    · push_neg at hlen
      obtain ⟨f, rfl⟩ : ∃ f, fuelS = f + 1 := ⟨fuelS - 1, by omega⟩
      obtain ⟨g, rfl⟩ : ∃ g, fuelU = g + 1 := ⟨fuelU - 1, by omega⟩
      have hc32 : c ≠ 2 ^ 32 - 1 := by omega
      have hstep := sealLoop_full_step segSize (ibsUsk vk pi.2) f X c 0 verifier []
        input hc32 (by simp) (by simpa using hlen)
      simp only [List.length_nil, Nat.sub_zero, List.nil_append, List.drop_zero] at hstep
      have hPlen : (input.take segSize).length = segSize := by
        rw [List.length_take]
        omega
      have hrest : (input.drop segSize).length = input.length - segSize := by
        rw [List.length_drop]
      have hsgl : (ibsSign (ibsUsk vk pi.2)
          (verifier ++ input.take segSize ++ beBytes 4 c ++ [0])).length = SIG_BYTES :=
        prfBytes_length _ _
      have hWflen : ((Deck.wrapM ⟨X, c⟩ (input.take segSize ++
          ibsSign (ibsUsk vk pi.2) (verifier ++ input.take segSize ++ beBytes 4 c ++
            [0]))).buf).length = segSize + SIG_BYTES + TAG_SIZE := by
        rw [Deck.wrapM_buf_length, List.length_append, hsgl, hPlen]
        unfold COUNTER_TAG_LEN TAG_LEN COUNTER_LEN SIG_BYTES TAG_SIZE
        omega
      obtain ⟨segs', hseal', hunseal', htrunc', hflen'⟩ :=
        ih (input.drop segSize) f g (c + 1) cu X (verifier ++ input.take segSize)
          (out ++ input.take segSize) (by omega) hseg (by omega) (by omega) (by omega)
          (by omega)
      refine ⟨(Deck.wrapM ⟨X, c⟩ (input.take segSize ++
        ibsSign (ibsUsk vk pi.2) (verifier ++ input.take segSize ++ beBytes 4 c ++
          [0]))).buf :: segs', ?_, ?_, ?_, ?_⟩
      · rw [hstep, hseal']
        rfl
      · rw [List.flatten_cons]
        rw [unsealLoop_full_step _ vk g X cu c c pi verifier (input.take segSize) _ _
          out (by omega) rfl (by rw [hPlen])]
        rw [hunseal']
        rw [List.append_assoc, List.take_append_drop]
      · intro j fu hj hfu
        rcases j with _ | j
        · simp only [List.take_zero, List.flatten_nil, List.length_nil] at hfu ⊢
          obtain ⟨g2, rfl⟩ : ∃ g2, fu = g2 + 1 := ⟨fu - 1, by omega⟩
          exact unsealLoop_empty_panic _ vk g2 _ verifier c (some pi) out
            (by unfold SIG_BYTES TAG_SIZE; omega)
        · rw [List.take_succ_cons, List.flatten_cons] at hfu ⊢
          rw [List.length_append, hWflen] at hfu
          obtain ⟨fu2, rfl⟩ : ∃ fu2, fu = fu2 + 1 := ⟨fu - 1, by omega⟩
          rw [unsealLoop_full_step _ vk fu2 X cu c c pi verifier (input.take segSize)
            _ _ out (by omega) rfl (by rw [hPlen])]
          exact htrunc' j fu2 (by simpa using hj) (by omega)
      · rw [List.flatten_cons, List.length_append, hWflen]
        rw [hrest] at hflen'
        omega

set_option maxHeartbeats 4000000 in
theorem sealUnseal_head (segSize : Nat) (vk : List Nat) (spol : Policy) (sid : List Nat)
    (input : List Nat) (fuelS fuelU cu : Nat) (X : Xoofff) (verifier out : List Nat)
    (hseg : 1 ≤ segSize)
    (hder : spol.derive_ibs = Except.ok sid)
    (hwfp : spol.bwf)
    (hpl32 : (encPolicy spol).length < 2 ^ 32)
    (hfit : 4 + (encPolicy spol).length ≤ segSize)
    (hfS : input.length + 3 ≤ fuelS)
    (hfU : input.length + 3 ≤ fuelU)
    (hcb : input.length < 2 ^ 32 - 2) :
    ∃ segs : List (List Nat),
      sealLoop segSize (ibsUsk vk sid) fuelS ⟨X, 0⟩ verifier 0
        (beBytes 4 (encPolicy spol).length ++ encPolicy spol)
        (beBytes 4 (encPolicy spol).length ++ encPolicy spol).length input =
        Outcome.ok segs ∧
      unsealLoop (segSize + SIG_BYTES + TAG_SIZE) vk fuelU ⟨X, cu⟩ verifier 0 none
        [] segs.flatten out = Outcome.ok (out ++ input, some (spol, sid)) ∧
      (∀ j fu, j < segs.length → (segs.take j).flatten.length + 1 ≤ fu →
        unsealLoop (segSize + SIG_BYTES + TAG_SIZE) vk fu ⟨X, cu⟩ verifier 0 none
          [] (segs.take j).flatten out = Outcome.panicked) ∧
      input.length ≤ segs.flatten.length := by
  have hc0 : (0 : Nat) ≠ 2 ^ 32 - 1 := by norm_num
  have hb0 : (beBytes 4 (encPolicy spol).length ++ encPolicy spol).length =
      4 + (encPolicy spol).length := by
    rw [List.length_append, beBytes_length]
  by_cases hcase : (beBytes 4 (encPolicy spol).length ++ encPolicy spol).length +
      input.length < segSize
  · -- single-segment stream: the policy prefix and the whole input fit strictly
    have hseal : sealLoop segSize (ibsUsk vk sid) fuelS ⟨X, 0⟩ verifier 0
        (beBytes 4 (encPolicy spol).length ++ encPolicy spol)
        (beBytes 4 (encPolicy spol).length ++ encPolicy spol).length input =
        Outcome.ok [(Deck.wrapM ⟨X, 0⟩
          (beBytes 4 (encPolicy spol).length ++ encPolicy spol ++ input ++
            ibsSign (ibsUsk vk sid) (verifier ++ input ++ beBytes 4 0 ++ [1]))).buf] := by
      by_cases hin : input = []
      · subst hin
        obtain ⟨f, rfl⟩ : ∃ f, fuelS = f + 1 := ⟨fuelS - 1, by omega⟩
        rw [sealLoop_final_step segSize (ibsUsk vk sid) f X 0 _ verifier _ hc0
          (by omega)]
        simp [List.drop_length]
      · obtain ⟨f, rfl⟩ : ∃ f, fuelS = f + 2 := ⟨fuelS - 2, by omega⟩
        rw [sealLoop_partial_step segSize (ibsUsk vk sid) (f + 1) X 0 _ verifier _
          input (List.length_pos.mpr hin) hcase]
        rw [sealLoop_final_step segSize (ibsUsk vk sid) f X 0 _ verifier _ hc0
          (by rw [List.length_append]; omega)]
        rw [drop_len_left]
    have hsgl : (ibsSign (ibsUsk vk sid)
        (verifier ++ input ++ beBytes 4 0 ++ [1])).length = SIG_BYTES :=
      prfBytes_length _ _
    have hWlen : ((Deck.wrapM ⟨X, 0⟩
        (beBytes 4 (encPolicy spol).length ++ encPolicy spol ++ input ++
          ibsSign (ibsUsk vk sid)
            (verifier ++ input ++ beBytes 4 0 ++ [1]))).buf).length =
        4 + (encPolicy spol).length + input.length + SIG_BYTES + TAG_SIZE := by
      rw [Deck.wrapM_buf_length]
      simp only [List.length_append, hsgl, beBytes_length]
      unfold COUNTER_TAG_LEN TAG_LEN COUNTER_LEN SIG_BYTES TAG_SIZE
      omega
    refine ⟨_, hseal, ?_, ?_, ?_⟩
    · obtain ⟨g, rfl⟩ : ∃ g, fuelU = g + 2 := ⟨fuelU - 2, by omega⟩
      have hWne : (Deck.wrapM ⟨X, 0⟩
          (beBytes 4 (encPolicy spol).length ++ encPolicy spol ++ input ++
            ibsSign (ibsUsk vk sid)
              (verifier ++ input ++ beBytes 4 0 ++ [1]))).buf ≠ [] := by
        intro h
        rw [h] at hWlen
        unfold SIG_BYTES TAG_SIZE at hWlen
        simp at hWlen
      rw [List.flatten, List.flatten_nil, List.append_nil]
      rw [unsealLoop_partial_step _ _ _ _ _ _ _ _ _
        (by rw [hWlen]; unfold SIG_BYTES TAG_SIZE at *; omega) hWne]
      exact unsealLoop_final_step0 _ vk g X cu 0 spol sid verifier input _ out hder hwfp
        hpl32 rfl (by rw [hb0] at hcase; unfold SIG_BYTES TAG_SIZE at *; omega)
    · intro j fu hj hfu
      simp only [List.length_singleton] at hj
      have hj0 : j = 0 := by omega
      subst hj0
      simp only [List.take_zero, List.flatten_nil, List.length_nil] at hfu ⊢
      obtain ⟨g2, rfl⟩ : ∃ g2, fu = g2 + 1 := ⟨fu - 1, by omega⟩
      exact unsealLoop_empty_panic _ vk g2 _ verifier 0 none out
        (by unfold SIG_BYTES TAG_SIZE; omega)
    · simp only [List.flatten_cons, List.flatten_nil, List.append_nil, hWlen]
      omega
  · -- the first segment fills completely
    push_neg at hcase
    obtain ⟨f, rfl⟩ : ∃ f, fuelS = f + 1 := ⟨fuelS - 1, by omega⟩
    obtain ⟨g, rfl⟩ : ∃ g, fuelU = g + 1 := ⟨fuelU - 1, by omega⟩
    have hstep := sealLoop_full_step segSize (ibsUsk vk sid) f X 0
      (beBytes 4 (encPolicy spol).length ++ encPolicy spol).length verifier
      (beBytes 4 (encPolicy spol).length ++ encPolicy spol) input hc0
      (by omega) hcase
    rw [drop_len_left] at hstep
    have hQ0len : (input.take (segSize -
        (beBytes 4 (encPolicy spol).length ++ encPolicy spol).length)).length =
        segSize - (beBytes 4 (encPolicy spol).length ++ encPolicy spol).length := by
      rw [List.length_take]
      omega
    have hsgl : (ibsSign (ibsUsk vk sid)
        (verifier ++ input.take (segSize -
          (beBytes 4 (encPolicy spol).length ++ encPolicy spol).length) ++
          beBytes 4 0 ++ [0])).length = SIG_BYTES :=
      prfBytes_length _ _
    have hWflen : ((Deck.wrapM ⟨X, 0⟩
        (beBytes 4 (encPolicy spol).length ++ encPolicy spol ++
          input.take (segSize -
            (beBytes 4 (encPolicy spol).length ++ encPolicy spol).length) ++
          ibsSign (ibsUsk vk sid)
            (verifier ++ input.take (segSize -
              (beBytes 4 (encPolicy spol).length ++ encPolicy spol).length) ++
              beBytes 4 0 ++ [0]))).buf).length = segSize + SIG_BYTES + TAG_SIZE := by
      rw [Deck.wrapM_buf_length, List.length_append, hsgl, List.length_append, hQ0len,
        List.length_append, beBytes_length]
      unfold COUNTER_TAG_LEN TAG_LEN COUNTER_LEN SIG_BYTES TAG_SIZE
      omega
    obtain ⟨segs', hseal', hunseal', htrunc', hflen'⟩ :=
      sealUnseal_tail segSize vk (spol, sid)
        (input.drop (segSize -
          (beBytes 4 (encPolicy spol).length ++ encPolicy spol).length)).length
        (input.drop (segSize -
          (beBytes 4 (encPolicy spol).length ++ encPolicy spol).length))
        f g 1 cu X
        (verifier ++ input.take (segSize -
          (beBytes 4 (encPolicy spol).length ++ encPolicy spol).length))
        (out ++ input.take (segSize -
          (beBytes 4 (encPolicy spol).length ++ encPolicy spol).length))
        le_rfl hseg
        (by rw [List.length_drop]; omega)
        (by rw [List.length_drop]; omega)
        le_rfl
        (by rw [List.length_drop]; omega)
    have hseal2 : sealLoop segSize (ibsUsk vk sid) f ⟨X, 1⟩
        (verifier ++ input.take (segSize -
          (beBytes 4 (encPolicy spol).length ++ encPolicy spol).length)) 1 [] 0
        (input.drop (segSize -
          (beBytes 4 (encPolicy spol).length ++ encPolicy spol).length)) =
        Outcome.ok segs' := hseal'
    have hunseal2 : unsealLoop (segSize + SIG_BYTES + TAG_SIZE) vk g ⟨X, cu⟩
        (verifier ++ input.take (segSize -
          (beBytes 4 (encPolicy spol).length ++ encPolicy spol).length)) 1
        (some (spol, sid)) [] segs'.flatten
        (out ++ input.take (segSize -
          (beBytes 4 (encPolicy spol).length ++ encPolicy spol).length)) =
        Outcome.ok ((out ++ input.take (segSize -
          (beBytes 4 (encPolicy spol).length ++ encPolicy spol).length)) ++
          input.drop (segSize -
            (beBytes 4 (encPolicy spol).length ++ encPolicy spol).length),
          some (spol, sid)) := hunseal'
    have htrunc2 : ∀ j fu, j < segs'.length →
        (segs'.take j).flatten.length + 1 ≤ fu →
        unsealLoop (segSize + SIG_BYTES + TAG_SIZE) vk fu ⟨X, cu⟩
          (verifier ++ input.take (segSize -
            (beBytes 4 (encPolicy spol).length ++ encPolicy spol).length)) 1
          (some (spol, sid)) [] (segs'.take j).flatten
          (out ++ input.take (segSize -
            (beBytes 4 (encPolicy spol).length ++ encPolicy spol).length)) =
        Outcome.panicked := htrunc'
    refine ⟨(Deck.wrapM ⟨X, 0⟩
      (beBytes 4 (encPolicy spol).length ++ encPolicy spol ++
        input.take (segSize -
          (beBytes 4 (encPolicy spol).length ++ encPolicy spol).length) ++
        ibsSign (ibsUsk vk sid)
          (verifier ++ input.take (segSize -
            (beBytes 4 (encPolicy spol).length ++ encPolicy spol).length) ++
            beBytes 4 0 ++ [0]))).buf :: segs', ?_, ?_, ?_, ?_⟩
    · rw [hstep, hseal2]
      rfl
    · rw [List.flatten_cons]
      rw [unsealLoop_full_step0 _ vk g X cu 0 spol sid verifier _ _ _ out hder hwfp
        hpl32 rfl (by rw [hQ0len, hb0] at *; omega)]
      rw [hunseal2]
      rw [List.append_assoc, List.take_append_drop]
    · intro j fu hj hfu
      rcases j with _ | j
      · simp only [List.take_zero, List.flatten_nil, List.length_nil] at hfu ⊢
        obtain ⟨g2, rfl⟩ : ∃ g2, fu = g2 + 1 := ⟨fu - 1, by omega⟩
        exact unsealLoop_empty_panic _ vk g2 _ verifier 0 none out
          (by unfold SIG_BYTES TAG_SIZE; omega)
      · rw [List.take_succ_cons, List.flatten_cons] at hfu ⊢
        rw [List.length_append, hWflen] at hfu
        obtain ⟨fu2, rfl⟩ : ∃ fu2, fu = fu2 + 1 := ⟨fu - 1, by omega⟩
        rw [unsealLoop_full_step0 _ vk fu2 X cu 0 spol sid verifier _ _ _ out hder hwfp
          hpl32 rfl (by rw [hQ0len, hb0] at *; omega)]
        exact htrunc2 j fu2 (by simpa using hj) (by omega)
    · rw [List.flatten_cons, List.length_append, hWflen]
      rw [List.length_drop] at hflen'
      omega

set_option maxHeartbeats 2000000 in
theorem unseal_reduce (h : Header) (pol : Policy) (r hv vk ident : List Nat)
    (usk : UserSecretKey) (hp : HiddenPolicy) (pk rid ss : List Nat)
    (hfind : h.recipients.find? (fun rp => rp.1 == ident) =
      some (ident, RecipientInfo.mk hp (kemEncaps pk rid ss)))
    (husk : usk.id = rid)
    (hss : KEY_SIZE ≤ ss.length) (halgo : STREAM_NONCE_SIZE ≤ h.algo.length) :
    Unsealer.unseal (Unsealer.mk h pol h.mode.segment_size r hv vk) ident usk =
      (unsealLoop (h.mode.segment_size + SIG_BYTES + TAG_SIZE) vk (r.length + 3)
        (Deck.new (ss.take KEY_SIZE) (h.algo.take STREAM_NONCE_SIZE)) hv 0 none [] r
        []).bind fun res =>
          match res.2 with
          | none => Outcome.panicked
          | some pi => Outcome.ok (res.1, VerificationResult.mk pol
              (if pol = pi.1 then none else some pi.1)) := by
  have hdec : kemDecaps usk (kemEncaps pk rid ss) = ss := by
    unfold kemDecaps kemEncaps
    rw [if_pos husk]
  unfold Unsealer.unseal
  simp only [hfind, hdec]
  rw [if_neg (by push_neg; exact ⟨hss, halgo⟩)]

theorem Outcome.map_map {α β γ : Type} (f : β → γ) (g : α → β) (x : Outcome α) :
    Outcome.map f (Outcome.map g x) = Outcome.map (fun a => f (g a)) x := by
  cases x <;> rfl

set_option maxHeartbeats 2000000 in
theorem sealerSeal_reduce (h : Header) (pubSk : SigningKeyExt)
    (privSk : Option SigningKeyExt) (segsize : Nat) (key nonce plain : List Nat)
    (hh32 : ¬(encHeader h).length ≥ 2 ^ 32)
    (hsig32 : ¬(encSigExt (ibsSign pubSk.key (encHeader h)) pubSk.policy).length ≥
      2 ^ 32)
    (hfit : ¬((encPolicy (privSk.getD pubSk).policy).length + POL_SIZE_SIZE > segsize))
    (hpl32 : ¬(encPolicy (privSk.getD pubSk).policy).length ≥ 2 ^ 32) :
    Sealer.seal (Sealer.mk h pubSk privSk segsize key nonce) plain =
      (sealLoop segsize (privSk.getD pubSk).key (plain.length + 3) (Deck.new key nonce)
        (encHeader h) 0
        (beBytes 4 (encPolicy (privSk.getD pubSk).policy).length ++
          encPolicy (privSk.getD pubSk).policy)
        (beBytes 4 (encPolicy (privSk.getD pubSk).policy).length ++
          encPolicy (privSk.getD pubSk).policy).length plain).map
        fun segs =>
          (PRELUDE ++ beBytes 2 VERSION_V3 ++ beBytes 4 (encHeader h).length ++
            encHeader h ++
            beBytes 4 (encSigExt (ibsSign pubSk.key (encHeader h)) pubSk.policy).length ++
            encSigExt (ibsSign pubSk.key (encHeader h)) pubSk.policy) ++ segs.flatten := by
  unfold Sealer.seal Sealer.sealParts
  simp only []
  rw [if_neg hh32, if_neg hsig32, if_neg hfit, if_neg hpl32, Outcome.map_map]

/-- The header built by `Sealer::<SealerStreamConfig>::new`: the recipient
map, the iv bytes as the algorithm payload, and the default streaming
mode. -/
def sealHeader (recips : List (List Nat × RecipientInfo)) (iv : List Nat) : Header :=
  Header.mk recips iv (Mode.mk SYMMETRIC_CRYPTO_DEFAULT_CHUNK (0, none))

/-- The byte prefix `Sealer::seal` writes before the first wire segment:
preamble, length-prefixed header, length-prefixed header signature. -/
def sealPre (pubSk : SigningKeyExt) (recips : List (List Nat × RecipientInfo))
    (iv : List Nat) : List Nat :=
  PRELUDE ++ beBytes 2 VERSION_V3 ++
    beBytes 4 (encHeader (sealHeader recips iv)).length ++
    encHeader (sealHeader recips iv) ++
    beBytes 4 (encSigExt (ibsSign pubSk.key (encHeader (sealHeader recips iv)))
      pubSk.policy).length ++
    encSigExt (ibsSign pubSk.key (encHeader (sealHeader recips iv))) pubSk.policy

theorem sealerNew_reduce (pk ss iv : List Nat) (policies : List (List Nat × Policy))
    (pubSk : SigningKeyExt) (recips : List (List Nat × RecipientInfo))
    (hrec : mkRecipients pk ss policies = Outcome.ok recips)
    (hss : KEY_SIZE ≤ ss.length) (hiv : STREAM_NONCE_SIZE ≤ iv.length) :
    Sealer.new pk policies pubSk ss iv = Outcome.ok
      (Sealer.mk (sealHeader recips iv) pubSk none SYMMETRIC_CRYPTO_DEFAULT_CHUNK
        (ss.take KEY_SIZE) (iv.take STREAM_NONCE_SIZE)) := by
  unfold Sealer.new sealHeader
  rw [hrec]
  simp only [Outcome.bind]
  rw [if_neg (by push_neg; exact ⟨hss, hiv⟩)]

set_option maxHeartbeats 4000000 in
theorem sealUnseal_master (pk ss iv plain vk ident : List Nat)
    (policies : List (List Nat × Policy))
    (pubSk : SigningKeyExt) (privSk : Option SigningKeyExt) (usk : UserSecretKey)
    (recips : List (List Nat × RecipientInfo)) (hpol : HiddenPolicy)
    (rid pubId sid : List Nat)
    (hss : KEY_SIZE ≤ ss.length)
    (hiv : STREAM_NONCE_SIZE ≤ iv.length)
    (hrec : mkRecipients pk ss policies = Outcome.ok recips)
    (hfind : recips.find? (fun rp => rp.1 == ident) =
      some (ident, RecipientInfo.mk hpol (kemEncaps pk rid ss)))
    (husk : usk.id = rid)
    (hwfh : (sealHeader recips iv).bwf)
    (hh32 : (encHeader (sealHeader recips iv)).length < 2 ^ 32)
    (hpubkey : pubSk.key = ibsUsk vk pubId)
    (hpubder : pubSk.policy.derive_ibs = Except.ok pubId)
    (hpubwf : pubSk.policy.bwf)
    (hsig32 : (encSigExt (ibsSign pubSk.key (encHeader (sealHeader recips iv)))
      pubSk.policy).length < 2 ^ 32)
    (hskeykey : (privSk.getD pubSk).key = ibsUsk vk sid)
    (hskeyder : (privSk.getD pubSk).policy.derive_ibs = Except.ok sid)
    (hskeywf : (privSk.getD pubSk).policy.bwf)
    (hpl32 : (encPolicy (privSk.getD pubSk).policy).length < 2 ^ 32)
    (hfit : 4 + (encPolicy (privSk.getD pubSk).policy).length ≤
      SYMMETRIC_CRYPTO_DEFAULT_CHUNK)
    (hplen : plain.length < 2 ^ 32 - 2) :
    ∃ segs : List (List Nat),
      sealStream pk policies pubSk privSk ss iv plain =
        Outcome.ok (sealPre pubSk recips iv ++ segs.flatten) ∧
      unsealStream (sealPre pubSk recips iv ++ segs.flatten) vk ident usk =
        Outcome.ok (plain, VerificationResult.mk pubSk.policy
          (if pubSk.policy = (privSk.getD pubSk).policy then none
            else some (privSk.getD pubSk).policy)) ∧
      (∀ j, j < segs.length →
        unsealStream (sealPre pubSk recips iv ++ (segs.take j).flatten) vk ident usk =
          Outcome.panicked) ∧
      plain.length ≤ segs.flatten.length := by
  have hdeck : Deck.new (ss.take KEY_SIZE) (iv.take STREAM_NONCE_SIZE) =
      ⟨(Deck.new (ss.take KEY_SIZE) (iv.take STREAM_NONCE_SIZE)).xoofff, 0⟩ := rfl
  obtain ⟨segs, hseal, hu0, ht0, hflen⟩ :=
    sealUnseal_head SYMMETRIC_CRYPTO_DEFAULT_CHUNK vk (privSk.getD pubSk).policy sid
      plain (plain.length + 3) (plain.length + 3) 0
      (Deck.new (ss.take KEY_SIZE) (iv.take STREAM_NONCE_SIZE)).xoofff
      (encHeader (sealHeader recips iv)) []
      (by norm_num [SYMMETRIC_CRYPTO_DEFAULT_CHUNK]) hskeyder hskeywf hpl32 hfit
      le_rfl le_rfl hplen
  obtain ⟨segs2, hseal2, hunseal2, htrunc2, hflen2⟩ :=
    sealUnseal_head SYMMETRIC_CRYPTO_DEFAULT_CHUNK vk (privSk.getD pubSk).policy sid
      plain (plain.length + 3) (segs.flatten.length + 3) 0
      (Deck.new (ss.take KEY_SIZE) (iv.take STREAM_NONCE_SIZE)).xoofff
      (encHeader (sealHeader recips iv)) []
      (by norm_num [SYMMETRIC_CRYPTO_DEFAULT_CHUNK]) hskeyder hskeywf hpl32 hfit
      le_rfl (by omega) hplen
  have hsegs : segs2 = segs := by
    have h2 := hseal.symm.trans hseal2
    injection h2 with h3
    exact h3.symm
  rw [hsegs] at hunseal2 htrunc2
  have hsiglen : (ibsSign pubSk.key (encHeader (sealHeader recips iv))).length =
      SIG_BYTES := prfBytes_length _ _
  have hver : ibsVerify vk (encHeader (sealHeader recips iv))
      (ibsSign pubSk.key (encHeader (sealHeader recips iv))) pubId = true := by
    unfold ibsVerify
    rw [hpubkey]
    exact beq_self_eq_true _
  refine ⟨segs, ?_, ?_, ?_, hflen⟩
  · unfold sealStream
    rw [sealerNew_reduce pk ss iv policies pubSk recips hrec hss hiv]
    simp only [Outcome.bind]
    rw [sealerSeal_reduce (sealHeader recips iv) pubSk privSk
      SYMMETRIC_CRYPTO_DEFAULT_CHUNK (ss.take KEY_SIZE) (iv.take STREAM_NONCE_SIZE)
      plain (by omega) (by omega) (by unfold POL_SIZE_SIZE; omega) (by omega)]
    rw [← hskeykey, ← hdeck] at hseal
    rw [hseal]
    rfl
  · unfold unsealStream
    have hassoc : sealPre pubSk recips iv ++ segs.flatten =
        PRELUDE ++ (beBytes 2 VERSION_V3 ++
          (beBytes 4 (encHeader (sealHeader recips iv)).length ++
            (encHeader (sealHeader recips iv) ++
              (beBytes 4 (encSigExt (ibsSign pubSk.key (encHeader (sealHeader recips iv)))
                pubSk.policy).length ++
                (encSigExt (ibsSign pubSk.key (encHeader (sealHeader recips iv)))
                  pubSk.policy ++ segs.flatten))))) := by
      unfold sealPre
      simp [List.append_assoc]
    rw [hassoc, unsealerNew_header (sealHeader recips iv) pubSk.policy _ vk _ pubId
      hwfh hpubwf hsiglen hh32 hsig32 hpubder hver]
    simp only [Outcome.bind]
    rw [unseal_reduce (sealHeader recips iv) pubSk.policy segs.flatten
      (encHeader (sealHeader recips iv)) vk ident usk hpol pk rid ss hfind husk hss hiv]
    rw [← hdeck] at hunseal2
    have hunseal3 : unsealLoop ((sealHeader recips iv).mode.segment_size + SIG_BYTES +
        TAG_SIZE) vk (segs.flatten.length + 3)
        (Deck.new (ss.take KEY_SIZE) ((sealHeader recips iv).algo.take
          STREAM_NONCE_SIZE))
        (encHeader (sealHeader recips iv)) 0 none [] segs.flatten [] =
        Outcome.ok ([] ++ plain, some ((privSk.getD pubSk).policy, sid)) := hunseal2
    rw [hunseal3]
    simp only [Outcome.bind, List.nil_append]
  · intro j hj
    unfold unsealStream
    have hassocj : sealPre pubSk recips iv ++ (segs.take j).flatten =
        PRELUDE ++ (beBytes 2 VERSION_V3 ++
          (beBytes 4 (encHeader (sealHeader recips iv)).length ++
            (encHeader (sealHeader recips iv) ++
              (beBytes 4 (encSigExt (ibsSign pubSk.key (encHeader (sealHeader recips iv)))
                pubSk.policy).length ++
                (encSigExt (ibsSign pubSk.key (encHeader (sealHeader recips iv)))
                  pubSk.policy ++ (segs.take j).flatten))))) := by
      unfold sealPre
      simp [List.append_assoc]
    rw [hassocj, unsealerNew_header (sealHeader recips iv) pubSk.policy _ vk _ pubId
      hwfh hpubwf hsiglen hh32 hsig32 hpubder hver]
    simp only [Outcome.bind]
    rw [unseal_reduce (sealHeader recips iv) pubSk.policy ((segs.take j).flatten)
      (encHeader (sealHeader recips iv)) vk ident usk hpol pk rid ss hfind husk hss hiv]
    have hpan := htrunc2 j ((segs.take j).flatten.length + 3) hj (by omega)
    rw [← hdeck] at hpan
    have hpan2 : unsealLoop ((sealHeader recips iv).mode.segment_size + SIG_BYTES +
        TAG_SIZE) vk ((segs.take j).flatten.length + 3)
        (Deck.new (ss.take KEY_SIZE) ((sealHeader recips iv).algo.take
          STREAM_NONCE_SIZE))
        (encHeader (sealHeader recips iv)) 0 none [] (segs.take j).flatten [] =
        Outcome.panicked := hpan
    rw [hpan2]
    rfl

/-!
Concrete honest-pipeline inputs used by the round-trip witnesses: a
verifying key, a public signing policy with its IBS identity and signing
key, a separate payload signing policy, a recipient policy with its IBE
identity, shared secret and iv of the RNG, and a small plaintext.
-/

def wVk : List Nat := [3, 1, 4]

def wPubPol : Policy := Policy.mk 11 [Attribute.mk (ascii "irma.org.mail") none]

def wPubId : List Nat :=
  match wPubPol.derive_ibs with
  | Except.ok v => v
  | Except.error _ => []

def wPubSk : SigningKeyExt := SigningKeyExt.mk (ibsUsk wVk wPubId) wPubPol

def wPrivPol : Policy := Policy.mk 44 [Attribute.mk (ascii "p.q") none]

def wSid : List Nat :=
  match wPrivPol.derive_ibs with
  | Except.ok v => v
  | Except.error _ => []

def wPrivSk : SigningKeyExt := SigningKeyExt.mk (ibsUsk wVk wSid) wPrivPol

def wRecPol : Policy := Policy.mk 22 [Attribute.mk (ascii "t.v") (some (ascii "x"))]

def wRid : List Nat :=
  match wRecPol.derive_ibe with
  | Except.ok v => v
  | Except.error _ => []

def wPk : List Nat := [0]

def wIdent : List Nat := [7, 7]

def wSs : List Nat := List.replicate 16 5

def wIv : List Nat := List.replicate 16 9

def wHp : HiddenPolicy := (wRecPol.to_hidden).getD (HiddenPolicy.mk 0 [])

def wRecips : List (List Nat × RecipientInfo) :=
  [(wIdent, RecipientInfo.mk wHp (kemEncaps wPk wRid wSs))]

def wUsk : UserSecretKey := UserSecretKey.mk wRid

def wPlain : List Nat := [10, 20, 30, 40]

/-- C1: sealing a plaintext with `Sealer::seal` under an encryption policy
and unsealing the produced byte stream with `Unsealer::unseal` for a
recipient named in that policy, using a user secret key for that
recipient's IBE identity, writes back exactly the plaintext and returns a
`VerificationResult` whose `public` field is the sealer's public signing
policy.  The hypotheses state the honest setup: the RNG outputs are long
enough, the recipient map was built by `Sealer::new`, the identifier is
found with the encapsulation of the shared secret, the user secret key
matches the recipient identity, the header is well formed with in-range
encoded lengths, both signing keys are issued (under the unsealer's
verifying key) for the IBS identities their policies derive to, the
payload signer policy fits a segment, and the plaintext length stays below
the `u32` segment-counter range. -/
theorem seal_unseal_roundtrip (pk ss iv plain vk ident : List Nat)
    (policies : List (List Nat × Policy))
    (pubSk : SigningKeyExt) (privSk : Option SigningKeyExt) (usk : UserSecretKey)
    (recips : List (List Nat × RecipientInfo)) (hpol : HiddenPolicy)
    (rid pubId sid : List Nat)
    (hss : KEY_SIZE ≤ ss.length)
    (hiv : STREAM_NONCE_SIZE ≤ iv.length)
    (hrec : mkRecipients pk ss policies = Outcome.ok recips)
    (hfind : recips.find? (fun rp => rp.1 == ident) =
      some (ident, RecipientInfo.mk hpol (kemEncaps pk rid ss)))
    (husk : usk.id = rid)
    (hwfh : (sealHeader recips iv).bwf)
    (hh32 : (encHeader (sealHeader recips iv)).length < 2 ^ 32)
    (hpubkey : pubSk.key = ibsUsk vk pubId)
    (hpubder : pubSk.policy.derive_ibs = Except.ok pubId)
    (hpubwf : pubSk.policy.bwf)
    (hsig32 : (encSigExt (ibsSign pubSk.key (encHeader (sealHeader recips iv)))
      pubSk.policy).length < 2 ^ 32)
    (hskeykey : (privSk.getD pubSk).key = ibsUsk vk sid)
    (hskeyder : (privSk.getD pubSk).policy.derive_ibs = Except.ok sid)
    (hskeywf : (privSk.getD pubSk).policy.bwf)
    (hpl32 : (encPolicy (privSk.getD pubSk).policy).length < 2 ^ 32)
    (hfit : 4 + (encPolicy (privSk.getD pubSk).policy).length ≤
      SYMMETRIC_CRYPTO_DEFAULT_CHUNK)
    (hplen : plain.length < 2 ^ 32 - 2) :
    ∃ (stream : List Nat) (vr : VerificationResult),
      sealStream pk policies pubSk privSk ss iv plain = Outcome.ok stream ∧
      unsealStream stream vk ident usk = Outcome.ok (plain, vr) ∧
      vr.public = pubSk.policy := by
  obtain ⟨segs, h1, h2, _, _⟩ := sealUnseal_master pk ss iv plain vk ident policies
    pubSk privSk usk recips hpol rid pubId sid hss hiv hrec hfind husk hwfh hh32
    hpubkey hpubder hpubwf hsig32 hskeykey hskeyder hskeywf hpl32 hfit hplen
  exact ⟨_, _, h1, h2, rfl⟩

set_option maxRecDepth 10000 in
/-- Witness for C1: the round trip at the concrete honest inputs, with the
public signing key also signing the payload. -/
theorem seal_unseal_roundtrip_witness :
    ∃ (stream : List Nat) (vr : VerificationResult),
      sealStream wPk [(wIdent, wRecPol)] wPubSk none wSs wIv wPlain =
        Outcome.ok stream ∧
      unsealStream stream wVk wIdent wUsk = Outcome.ok (wPlain, vr) ∧
      vr.public = wPubSk.policy :=
  seal_unseal_roundtrip wPk wSs wIv wPlain wVk wIdent [(wIdent, wRecPol)] wPubSk none
    wUsk wRecips wHp wRid wPubId wPubId (by decide) (by decide) rfl rfl rfl
    (by decide) (by decide) rfl rfl (by decide) (by decide) rfl rfl (by decide)
    (by decide) (by decide) (by decide)

/-- C9: `Unsealer::unseal` returns a `VerificationResult` whose `public`
field is the header signing policy and whose `private` field is `None`
exactly when the signer policy recovered from segment 0 (the policy of the
key that signed the payload, `priv_sign_key` when installed and the public
signing key otherwise) equals the header signing policy, and
`Some`(that policy) otherwise.  The hypotheses are the honest setup of the
round trip. -/
theorem unseal_private_field (pk ss iv plain vk ident : List Nat)
    (policies : List (List Nat × Policy))
    (pubSk : SigningKeyExt) (privSk : Option SigningKeyExt) (usk : UserSecretKey)
    (recips : List (List Nat × RecipientInfo)) (hpol : HiddenPolicy)
    (rid pubId sid : List Nat)
    (hss : KEY_SIZE ≤ ss.length)
    (hiv : STREAM_NONCE_SIZE ≤ iv.length)
    (hrec : mkRecipients pk ss policies = Outcome.ok recips)
    (hfind : recips.find? (fun rp => rp.1 == ident) =
      some (ident, RecipientInfo.mk hpol (kemEncaps pk rid ss)))
    (husk : usk.id = rid)
    (hwfh : (sealHeader recips iv).bwf)
    (hh32 : (encHeader (sealHeader recips iv)).length < 2 ^ 32)
    (hpubkey : pubSk.key = ibsUsk vk pubId)
    (hpubder : pubSk.policy.derive_ibs = Except.ok pubId)
    (hpubwf : pubSk.policy.bwf)
    (hsig32 : (encSigExt (ibsSign pubSk.key (encHeader (sealHeader recips iv)))
      pubSk.policy).length < 2 ^ 32)
    (hskeykey : (privSk.getD pubSk).key = ibsUsk vk sid)
    (hskeyder : (privSk.getD pubSk).policy.derive_ibs = Except.ok sid)
    (hskeywf : (privSk.getD pubSk).policy.bwf)
    (hpl32 : (encPolicy (privSk.getD pubSk).policy).length < 2 ^ 32)
    (hfit : 4 + (encPolicy (privSk.getD pubSk).policy).length ≤
      SYMMETRIC_CRYPTO_DEFAULT_CHUNK)
    (hplen : plain.length < 2 ^ 32 - 2) :
    ∃ stream : List Nat,
      sealStream pk policies pubSk privSk ss iv plain = Outcome.ok stream ∧
      unsealStream stream vk ident usk = Outcome.ok (plain,
        VerificationResult.mk pubSk.policy
          (if pubSk.policy = (privSk.getD pubSk).policy then none
            else some (privSk.getD pubSk).policy)) := by
  obtain ⟨segs, h1, h2, _, _⟩ := sealUnseal_master pk ss iv plain vk ident policies
    pubSk privSk usk recips hpol rid pubId sid hss hiv hrec hfind husk hwfh hh32
    hpubkey hpubder hpubwf hsig32 hskeykey hskeyder hskeywf hpl32 hfit hplen
  exact ⟨_, h1, h2⟩

set_option maxRecDepth 10000 in
/-- Witness for C9: sealing with a private signing key whose policy
differs from the public signing policy yields `private` equal to
`Some`(the private signing policy) and `public` equal to the public
signing policy. -/
theorem unseal_private_field_witness :
    ∃ stream : List Nat,
      sealStream wPk [(wIdent, wRecPol)] wPubSk (some wPrivSk) wSs wIv wPlain =
        Outcome.ok stream ∧
      unsealStream stream wVk wIdent wUsk = Outcome.ok (wPlain,
        VerificationResult.mk wPubSk.policy (some wPrivSk.policy)) := by
  obtain ⟨stream, h1, h2⟩ := unseal_private_field wPk wSs wIv wPlain wVk wIdent
    [(wIdent, wRecPol)] wPubSk (some wPrivSk) wUsk wRecips wHp wRid wPubId wSid
    (by decide) (by decide) rfl rfl rfl (by decide) (by decide) rfl rfl (by decide)
    (by decide) rfl rfl (by decide) (by decide) (by decide) (by decide)
  refine ⟨stream, h1, ?_⟩
  rw [h2, if_neg (by decide)]
  rfl

set_option maxRecDepth 10000 in
/-- C8 counterexample: the claim says every proper prefix of a sealed
stream makes the unsealer return a `WrongTag` or `IncorrectSignature`
error.  At the concrete honest inputs, cutting the stream exactly after
the header material (a proper prefix: the payload segments are nonempty)
makes `Unsealer::new` succeed but `Unsealer::unseal` PANIC — the read loop
reaches the empty final read and calls `Deck::unwrap_last` on an empty
buffer, whose out-of-bounds slice `&cipher[COUNTER_LEN..]` aborts.  No
`WrongTag` or `IncorrectSignature` error value is ever returned. -/
theorem truncation_boundary_counterexample :
    ∃ (stream rest : List Nat),
      sealStream wPk [(wIdent, wRecPol)] wPubSk none wSs wIv wPlain =
        Outcome.ok stream ∧
      stream = sealPre wPubSk wRecips wIv ++ rest ∧
      rest ≠ [] ∧
      unsealStream (sealPre wPubSk wRecips wIv) wVk wIdent wUsk =
        Outcome.panicked := by
  obtain ⟨segs, h1, h2, h3, h4⟩ := sealUnseal_master wPk wSs wIv wPlain wVk wIdent
    [(wIdent, wRecPol)] wPubSk none wUsk wRecips wHp wRid wPubId wPubId (by decide)
    (by decide) rfl rfl rfl (by decide) (by decide) rfl rfl (by decide) (by decide)
    rfl rfl (by decide) (by decide) (by decide) (by decide)
  have hne : segs.flatten ≠ [] := by
    intro h
    rw [h] at h4
    exact absurd h4 (by decide)
  have hlen : 0 < segs.length := by
    cases segs with
    | nil => exact absurd h4 (by decide)
    | cons a t => simp
  have h5 := h3 0 hlen
  refine ⟨_, segs.flatten, h1, rfl, hne, ?_⟩
  simpa using h5

/-- C8 (amended): truncating an honestly sealed stream at any wire
segment boundary — keeping the header material and the first `j` of the
wire segments, for any `j` smaller than the segment count — makes the
unseal pipeline panic (the empty final read feeds `Deck::unwrap_last` an
empty buffer and its slicing aborts the process).  In particular no
shortened plaintext is ever returned, but the failure is a panic, not the
`WrongTag` or `IncorrectSignature` error values the claim names. -/
theorem truncation_boundary_amended (pk ss iv plain vk ident : List Nat)
    (policies : List (List Nat × Policy))
    (pubSk : SigningKeyExt) (privSk : Option SigningKeyExt) (usk : UserSecretKey)
    (recips : List (List Nat × RecipientInfo)) (hpol : HiddenPolicy)
    (rid pubId sid : List Nat)
    (hss : KEY_SIZE ≤ ss.length)
    (hiv : STREAM_NONCE_SIZE ≤ iv.length)
    (hrec : mkRecipients pk ss policies = Outcome.ok recips)
    (hfind : recips.find? (fun rp => rp.1 == ident) =
      some (ident, RecipientInfo.mk hpol (kemEncaps pk rid ss)))
    (husk : usk.id = rid)
    (hwfh : (sealHeader recips iv).bwf)
    (hh32 : (encHeader (sealHeader recips iv)).length < 2 ^ 32)
    (hpubkey : pubSk.key = ibsUsk vk pubId)
    (hpubder : pubSk.policy.derive_ibs = Except.ok pubId)
    (hpubwf : pubSk.policy.bwf)
    (hsig32 : (encSigExt (ibsSign pubSk.key (encHeader (sealHeader recips iv)))
      pubSk.policy).length < 2 ^ 32)
    (hskeykey : (privSk.getD pubSk).key = ibsUsk vk sid)
    (hskeyder : (privSk.getD pubSk).policy.derive_ibs = Except.ok sid)
    (hskeywf : (privSk.getD pubSk).policy.bwf)
    (hpl32 : (encPolicy (privSk.getD pubSk).policy).length < 2 ^ 32)
    (hfit : 4 + (encPolicy (privSk.getD pubSk).policy).length ≤
      SYMMETRIC_CRYPTO_DEFAULT_CHUNK)
    (hplen : plain.length < 2 ^ 32 - 2) :
    ∃ segs : List (List Nat),
      sealStream pk policies pubSk privSk ss iv plain =
        Outcome.ok (sealPre pubSk recips iv ++ segs.flatten) ∧
      ∀ j, j < segs.length →
        unsealStream (sealPre pubSk recips iv ++ (segs.take j).flatten) vk ident usk =
          Outcome.panicked := by
  obtain ⟨segs, h1, _, h3, _⟩ := sealUnseal_master pk ss iv plain vk ident policies
    pubSk privSk usk recips hpol rid pubId sid hss hiv hrec hfind husk hwfh hh32
    hpubkey hpubder hpubwf hsig32 hskeykey hskeyder hskeywf hpl32 hfit hplen
  exact ⟨segs, h1, h3⟩

set_option maxRecDepth 10000 in
/-- Witness for the amended C8 at the concrete honest inputs. -/
theorem truncation_boundary_amended_witness :
    ∃ segs : List (List Nat),
      sealStream wPk [(wIdent, wRecPol)] wPubSk none wSs wIv wPlain =
        Outcome.ok (sealPre wPubSk wRecips wIv ++ segs.flatten) ∧
      ∀ j, j < segs.length →
        unsealStream (sealPre wPubSk wRecips wIv ++ (segs.take j).flatten) wVk wIdent
          wUsk = Outcome.panicked :=
  truncation_boundary_amended wPk wSs wIv wPlain wVk wIdent [(wIdent, wRecPol)] wPubSk
    none wUsk wRecips wHp wRid wPubId wPubId (by decide) (by decide) rfl rfl rfl
    (by decide) (by decide) rfl rfl (by decide) (by decide) rfl rfl (by decide)
    (by decide) (by decide) (by decide)
